import Mathlib

/-!
# Verification of the `reflect` code-generation IR core

Shallow embedding of the crate's core data model and operations:

* `src/generics.rs` — generic parameters, constraints, lookup tables and the
  fresh-generics (alpha-renaming) clone;
* `src/ty.rs` — the `Type` node algebra (`Type` is a transparent
  `#[repr(C)]` newtype over `TypeNode`; the embedding identifies the two and
  works with `TypeNode` directly);
* `src/node.rs` / `src/value.rs` — the `Value` node algebra over the global
  append-only value arena, which is modelled by explicit state passing of a
  `List ValueNode` (a push appends and returns the index of the new node);
* `src/data.rs` — the shared structural `Data`/`Struct`/`Enum` shape model.

Rust panics (`panic!`, `unimplemented!`, `expect`, out-of-bounds indexing,
`unwrap`) are modelled by `Option` results, `none` meaning a fatal abort.
The process-wide symbol counters (`LIFETIMES`, `TYPE_PARAMS`) are modelled by
an explicit `Counters` state threaded through the minting operations.
Items that live in crate files not present under `src/` (`Path`,
`Data::map`, `Field`, `Accessor`, `STATIC_LIFETIME`, the global counters and
arenas) are modelled from the spec and marked as such.
-/

namespace Reflect

/-- `struct Lifetime(pub usize)` — a lifetime symbol's sequence number. -/
structure Lifetime where
  idx : Nat
deriving DecidableEq

/-- `struct TypeParam(pub usize)` — a type-parameter symbol's sequence number. -/
structure TypeParam where
  idx : Nat
deriving DecidableEq

/-- `struct ConstParam { private: () }` — recognised but unsupported. -/
structure ConstParam where
deriving DecidableEq

/-- `enum GenericParam { Lifetime, Type, Const }` (the `Type` variant is named
`Typ` here because `Type` is a Lean keyword). -/
inductive GenericParam where
  | Lifetime (l : Lifetime)
  | Typ (t : TypeParam)
  | Const (c : ConstParam)
deriving DecidableEq

/-- Modelled from the spec: the fixed well-known symbol for the
static/unbounded lifetime, seeded into every lookup table (`STATIC_LIFETIME`
lives in a crate file not present under `src/`). -/
def STATIC_LIFETIME : Lifetime := ⟨0⟩

/-- Modelled from the spec: the process-wide monotonically increasing
counters (`LIFETIMES`, `TYPE_PARAMS`) that mint fresh symbol numbers, made
explicit as threaded state. -/
structure Counters where
  lifetimes : Nat
  type_params : Nat
deriving DecidableEq

/-- `LIFETIMES.count()` — return the current number and advance the counter. -/
def Counters.countLifetime (c : Counters) : Lifetime × Counters :=
  (⟨c.lifetimes⟩, { c with lifetimes := c.lifetimes + 1 })

/-- `TYPE_PARAMS.count()` — return the current number and advance the counter. -/
def Counters.countTypeParam (c : Counters) : TypeParam × Counters :=
  (⟨c.type_params⟩, { c with type_params := c.type_params + 1 })

/-- Association-list model of `BTreeMap` insertion: replace the value at an
existing key, otherwise append the new entry. -/
def alInsert {K V : Type} [DecidableEq K] : List (K × V) → K → V → List (K × V)
  | [], k, v => [(k, v)]
  | (k', v') :: rest, k, v =>
    if k' = k then (k, v) :: rest else (k', v') :: alInsert rest k v

/-- Association-list model of `BTreeMap` lookup. -/
def alGet {K V : Type} [DecidableEq K] : List (K × V) → K → Option V
  | [], _ => none
  | (k', v') :: rest, k => if k' = k then some v' else alGet rest k

/-- `SynParamMap` — the name → `GenericParam` lookup table. -/
structure SynParamMap where
  map : List (String × GenericParam)
deriving DecidableEq

/-- `SynParamMap::new` — seeds the table with the static lifetime. -/
def SynParamMap.new : SynParamMap :=
  ⟨[("'static", GenericParam.Lifetime STATIC_LIFETIME)]⟩

/-- `SynParamMap::insert`. -/
def SynParamMap.insert (m : SynParamMap) (k : String) (v : GenericParam) : SynParamMap :=
  ⟨alInsert m.map k v⟩

/-- `SynParamMap::get`. -/
def SynParamMap.get (m : SynParamMap) (k : String) : Option GenericParam :=
  alGet m.map k

/-- `SynParamMap::append` — move all of `other`'s entries into `self`
(`BTreeMap::append`; later entries overwrite existing keys). -/
def SynParamMap.append (m other : SynParamMap) : SynParamMap :=
  other.map.foldl (fun acc kv => acc.insert kv.1 kv.2) m

/-- `GenericParam::lifetime`. -/
def GenericParam.lifetime : GenericParam → Option Reflect.Lifetime
  | .Lifetime l => some l
  | _ => none

/-- `GenericParam::type_param`. -/
def GenericParam.type_param : GenericParam → Option Reflect.TypeParam
  | .Typ t => some t
  | _ => none

/-- `SynParamMap::get_lifetime` — `expect` panic modelled as `none`. -/
def SynParamMap.get_lifetime (m : SynParamMap) (ident : String) : Option Lifetime :=
  (m.get ident).bind GenericParam.lifetime

/-- `ParamMap` — the old-symbol → new-symbol substitution map built by a
fresh-generics clone. -/
structure ParamMap where
  map : List (GenericParam × GenericParam)

/-- `ParamMap::new` — the static lifetime always maps to itself. -/
def ParamMap.new : ParamMap :=
  ⟨[(GenericParam.Lifetime STATIC_LIFETIME, GenericParam.Lifetime STATIC_LIFETIME)]⟩

/-- `ParamMap::insert`. -/
def ParamMap.insert (m : ParamMap) (k v : GenericParam) : ParamMap :=
  ⟨alInsert m.map k v⟩

/-- `ParamMap::get`. -/
def ParamMap.get (m : ParamMap) (k : GenericParam) : Option GenericParam :=
  alGet m.map k

/-- Attributes are opaque to the core and forwarded as-is; modelled by their
token text. -/
abbrev Attribute := String

/-- Modelled from the spec: a field accessor is "how to reach that field from
its parent — by position or by name" (`Accessor` lives in a crate file not
present under `src/`; `Accessor::Index(usize)` is used by `Value::index`). -/
inductive Accessor where
  | Index (i : Nat)
  | Name (n : String)
deriving DecidableEq

/-- Modelled from the spec: a `Field<T>` pairs an accessor with an element of
type `T` (from a crate file not present under `src/`). -/
structure Field (T : Type) where
  accessor : Accessor
  element : T

/-- `struct UnitStruct { attrs }`. -/
structure UnitStruct where
  attrs : List Attribute

/-- `struct TupleStruct<T> { fields, attrs }`. -/
structure TupleStruct (T : Type) where
  fields : List (Field T)
  attrs : List Attribute

/-- `struct StructStruct<T> { fields, attrs }`. -/
structure StructStruct (T : Type) where
  fields : List (Field T)
  attrs : List Attribute

/-- `enum Struct<T> { Unit, Tuple, Struct }`. -/
inductive Struct (T : Type) where
  | Unit (u : UnitStruct)
  | Tuple (t : TupleStruct T)
  | Struct (s : StructStruct T)

/-- `struct UnitVariant { attrs }`. -/
structure UnitVariant where
  attrs : List Attribute

/-- `struct TupleVariant<T> { phantom, attrs }` — carries no `T` elements. -/
structure TupleVariant where
  attrs : List Attribute

/-- `struct StructVariant<T> { phantom, attrs }` — carries no `T` elements. -/
structure StructVariant where
  attrs : List Attribute

/-- `enum Variant<T> { Unit, Tuple, Struct }`. -/
inductive Variant (T : Type) where
  | Unit (u : UnitVariant)
  | Tuple (t : TupleVariant)
  | Struct (s : StructVariant)

/-- `struct Enum<T> { variants, attrs }`. -/
structure Enum (T : Type) where
  variants : List (Variant T)
  attrs : List Attribute

/-- `enum Data<T> { Struct, Enum }`. -/
inductive Data (T : Type) where
  | Struct (s : Struct T)
  | Enum (e : Enum T)

/-- `struct LifetimeDef { lifetime, bounds }` — a lifetime bounded by a set of
lifetimes. -/
structure LifetimeDef where
  lifetime : Lifetime
  bounds : List Lifetime
deriving DecidableEq

mutual

/-- `enum TypeNode` from `src/ty.rs` (the `Type` newtype wrapper is
identified with `TypeNode`; the Rust `TypeParam` variant keeps its name). -/
inductive TypeNode : Type where
  | Infer : TypeNode
  | Tuple (types : List TypeNode) : TypeNode
  | PrimitiveStr : TypeNode
  | Reference (is_mut : Bool) (lifetime : Option Lifetime) (inner : TypeNode) : TypeNode
  | Dereference (inner : TypeNode) : TypeNode
  | TraitObject (bounds : List TypeParamBound) : TypeNode
  | DataStructure (data : DataStructure) : TypeNode
  | Path (path : Path) : TypeNode
  | TypeParam (param : TypeParam) : TypeNode

/-- `struct DataStructure { name, generics, data }` from `src/ty.rs`. -/
inductive DataStructure : Type where
  | mk (name : String) (generics : Generics) (data : Data TypeNode) : DataStructure

/-- `struct Generics { params, constraints, param_map }`. -/
inductive Generics : Type where
  | mk (params : List GenericParam) (constraints : List GenericConstraint)
      (param_map : SynParamMap) : Generics

/-- `enum GenericConstraint { Type, Lifetime }` (`Type` variant named `Typ`). -/
inductive GenericConstraint : Type where
  | Typ (p : PredicateType) : GenericConstraint
  | Lifetime (l : LifetimeDef) : GenericConstraint

/-- `struct PredicateType { lifetimes, bounded_ty, bounds }`. -/
inductive PredicateType : Type where
  | mk (lifetimes : List Lifetime) (bounded_ty : TypeNode)
      (bounds : List TypeParamBound) : PredicateType

/-- `enum TypeParamBound { Trait, Lifetime }`. -/
inductive TypeParamBound : Type where
  | Trait (t : TraitBound) : TypeParamBound
  | Lifetime (l : Lifetime) : TypeParamBound

/-- `struct TraitBound { lifetimes, path }`. -/
inductive TraitBound : Type where
  | mk (lifetimes : List Lifetime) (path : Path) : TraitBound

/-- Modelled from the spec: a `Path` is a module-qualified name with generic
arguments (`path.rs` is not present under `src/`; the `GenericArguments` it
carries are the present `src/generics.rs` type). -/
inductive Path : Type where
  | mk (global : Bool) (path : List PathSegment) : Path

/-- Modelled from the spec: one path segment — an identifier plus its generic
arguments (from the crate's `path.rs`, not present under `src/`). -/
inductive PathSegment : Type where
  | mk (ident : String) (args : GenericArguments) : PathSegment

/-- `struct GenericArguments { args }`. -/
inductive GenericArguments : Type where
  | mk (args : List GenericArgument) : GenericArguments

/-- `enum GenericArgument { Type, Lifetime, Binding, Constraint, Const }`
(`Type` variant named `Typ`; the unsupported `Const` carries a private unit). -/
inductive GenericArgument : Type where
  | Typ (t : TypeNode) : GenericArgument
  | Lifetime (l : Lifetime) : GenericArgument
  | Binding (b : ABinding) : GenericArgument
  | Constraint (c : AConstraint) : GenericArgument
  | Const : GenericArgument

/-- `struct Binding { ident, ty }` (named `ABinding` to avoid clashing with
the `ValueNode::Binding` constructor). -/
inductive ABinding : Type where
  | mk (ident : String) (ty : TypeNode) : ABinding

/-- `struct Constraint { ident, bounds }` (named `AConstraint`). -/
inductive AConstraint : Type where
  | mk (ident : String) (bounds : List TypeParamBound) : AConstraint

end

/-- Projection: `Generics.params`. -/
def Generics.params (g : Generics) : List GenericParam :=
  match g with
  | .mk p _ _ => p

/-- Projection: `Generics.constraints`. -/
def Generics.constraints (g : Generics) : List GenericConstraint :=
  match g with
  | .mk _ c _ => c

/-- Projection: `Generics.param_map`. -/
def Generics.param_map (g : Generics) : SynParamMap :=
  match g with
  | .mk _ _ m => m

/-- `Generics::default()` — empty params and constraints, fresh lookup table. -/
def Generics.default : Generics :=
  .mk [] [] SynParamMap.new

/-- `Option`-propagating map over a list (Rust `iter().map(...).collect()`
where the closure may panic). -/
def optMap {A B : Type} (f : A → Option B) : List A → Option (List B)
  | [] => some []
  | a :: rest =>
    match f a with
    | none => none
    | some b => (optMap f rest).map (fun bs => b :: bs)

/-- `Lifetime::clone_with_fresh_generics` — look the symbol up in the
substitution map; the `unwrap` panic is modelled as `none`. -/
def Lifetime.clone_with_fresh_generics (l : Lifetime) (pm : ParamMap) : Option Lifetime :=
  (pm.get (GenericParam.Lifetime l)).bind GenericParam.lifetime

/-- Clone a list of lifetimes through the substitution map. -/
def cloneLifetimes (pm : ParamMap) (ls : List Lifetime) : Option (List Lifetime) :=
  optMap (fun l => l.clone_with_fresh_generics pm) ls

/-- `GenericParam::get_fresh_param` — mint a fresh symbol of the same kind
from the matching counter; `Const` is a fatal `unimplemented!`. -/
def GenericParam.get_fresh_param (p : GenericParam) (c : Counters) :
    Option (GenericParam × Counters) :=
  match p with
  | .Typ _ =>
    let (t, c') := c.countTypeParam
    some (.Typ t, c')
  | .Lifetime _ =>
    let (l, c') := c.countLifetime
    some (.Lifetime l, c')
  | .Const _ => none

mutual

/-- `TypeNode::clone_with_fresh_generics` from `src/ty.rs`: rebuild the type
with every symbol substituted through the map; `DataStructure` is a fatal
`unimplemented!` and a `TypeParam` missing from the map is an `unwrap` panic. -/
def TypeNode.clone_with_fresh_generics : TypeNode → ParamMap → Option TypeNode
  | .Infer, _ => some .Infer
  | .Tuple types, pm =>
    (cloneTypeNodeList types pm).map (fun ts => .Tuple ts)
  | .PrimitiveStr, _ => some .PrimitiveStr
  | .Reference is_mut lifetime inner, pm =>
    (cloneOptLifetime lifetime pm).bind (fun lt =>
      (TypeNode.clone_with_fresh_generics inner pm).map
        (fun inner' => .Reference is_mut lt inner'))
  | .Dereference t, pm =>
    (TypeNode.clone_with_fresh_generics t pm).map (fun t' => .Dereference t')
  | .TraitObject bounds, pm =>
    (cloneTypeParamBoundList bounds pm).map (fun bs => .TraitObject bs)
  | .DataStructure _, _ => none
  | .Path p, pm => (Path.clone_with_fresh_generics p pm).map (fun p' => .Path p')
  | .TypeParam tp, pm =>
    ((pm.get (GenericParam.Typ tp)).bind GenericParam.type_param).map
      (fun tp' => .TypeParam tp')

/-- `lifetime.map(|l| l.clone_with_fresh_generics(pm))` on an optional
lifetime, propagating the inner `unwrap` panic. -/
def cloneOptLifetime : Option Lifetime → ParamMap → Option (Option Lifetime)
  | none, _ => some none
  | some l, pm => (l.clone_with_fresh_generics pm).map (fun l' => some l')

/-- Element-wise clone of a list of type nodes. -/
def cloneTypeNodeList : List TypeNode → ParamMap → Option (List TypeNode)
  | [], _ => some []
  | t :: rest, pm =>
    (TypeNode.clone_with_fresh_generics t pm).bind (fun t' =>
      (cloneTypeNodeList rest pm).map (fun ts => t' :: ts))

/-- `TypeParamBound::clone_with_fresh_generics` from `src/generics.rs`. -/
def TypeParamBound.clone_with_fresh_generics : TypeParamBound → ParamMap → Option TypeParamBound
  | .Lifetime l, pm =>
    (l.clone_with_fresh_generics pm).map (fun l' => .Lifetime l')
  | .Trait (.mk lifetimes path), pm =>
    (cloneLifetimes pm lifetimes).bind (fun ls =>
      (Path.clone_with_fresh_generics path pm).map
        (fun p' => .Trait (.mk ls p')))

/-- Element-wise clone of a list of type-param bounds. -/
def cloneTypeParamBoundList : List TypeParamBound → ParamMap → Option (List TypeParamBound)
  | [], _ => some []
  | b :: rest, pm =>
    (TypeParamBound.clone_with_fresh_generics b pm).bind (fun b' =>
      (cloneTypeParamBoundList rest pm).map (fun bs => b' :: bs))

/-- Modelled from the spec: `Path::clone_with_fresh_generics` (from the
crate's `path.rs`, not present under `src/`) — clone every segment's generic
arguments through the substitution map. -/
def Path.clone_with_fresh_generics : Path → ParamMap → Option Path
  | .mk global segs, pm =>
    (clonePathSegmentList segs pm).map (fun ss => .mk global ss)

/-- Element-wise clone of path segments. -/
def clonePathSegmentList : List PathSegment → ParamMap → Option (List PathSegment)
  | [], _ => some []
  | .mk ident args :: rest, pm =>
    (GenericArguments.clone_with_fresh_generics args pm).bind (fun args' =>
      (clonePathSegmentList rest pm).map (fun ss => .mk ident args' :: ss))

/-- `GenericArguments::clone_with_fresh_generics` from `src/generics.rs`. -/
def GenericArguments.clone_with_fresh_generics : GenericArguments → ParamMap → Option GenericArguments
  | .mk args, pm => (cloneGenericArgumentList args pm).map (fun as' => .mk as')

/-- Element-wise clone of generic arguments. -/
def cloneGenericArgumentList : List GenericArgument → ParamMap → Option (List GenericArgument)
  | [], _ => some []
  | a :: rest, pm =>
    (GenericArgument.clone_with_fresh_generics a pm).bind (fun a' =>
      (cloneGenericArgumentList rest pm).map (fun as' => a' :: as'))

/-- `GenericArgument::clone_with_fresh_generics` from `src/generics.rs`; the
`Const` case is a fatal `unimplemented!`. -/
def GenericArgument.clone_with_fresh_generics : GenericArgument → ParamMap → Option GenericArgument
  | .Typ t, pm => (TypeNode.clone_with_fresh_generics t pm).map (fun t' => .Typ t')
  | .Lifetime l, pm => (l.clone_with_fresh_generics pm).map (fun l' => .Lifetime l')
  | .Binding (.mk ident ty), pm =>
    (TypeNode.clone_with_fresh_generics ty pm).map (fun ty' => .Binding (.mk ident ty'))
  | .Constraint (.mk ident bounds), pm =>
    (cloneTypeParamBoundList bounds pm).map (fun bs => .Constraint (.mk ident bs))
  | .Const, _ => none

end

/-- `GenericConstraint::clone_with_fresh_generics` from `src/generics.rs`. -/
def GenericConstraint.clone_with_fresh_generics :
    GenericConstraint → ParamMap → Option GenericConstraint
  | .Typ (.mk lifetimes bounded_ty bounds), pm =>
    (cloneLifetimes pm lifetimes).bind (fun ls =>
      (TypeNode.clone_with_fresh_generics bounded_ty pm).bind (fun ty' =>
        (cloneTypeParamBoundList bounds pm).map
          (fun bs => .Typ (.mk ls ty' bs))))
  | .Lifetime ld, pm =>
    (ld.lifetime.clone_with_fresh_generics pm).bind (fun l' =>
      (cloneLifetimes pm ld.bounds).map
        (fun bs => .Lifetime ⟨l', bs⟩))

/-- Element-wise clone of a constraint list. -/
def cloneConstraintList (cs : List GenericConstraint) (pm : ParamMap) :
    Option (List GenericConstraint) :=
  optMap (fun c => c.clone_with_fresh_generics pm) cs

/-- The parameter pass of `Generics::clone_with_fresh_generics`: mint a fresh
symbol for every declared parameter in order, recording each substitution in
the map (the Rust `map(...).collect()` over `self.params` with the
`param_map.insert` side effect). -/
def freshParams : List GenericParam → ParamMap → Counters →
    Option (List GenericParam × ParamMap × Counters)
  | [], pm, c => some ([], pm, c)
  | p :: rest, pm, c =>
    match p.get_fresh_param c with
    | none => none
    | some (p', c') =>
      (freshParams rest (pm.insert p p') c').map
        (fun r => (p' :: r.1, r.2.1, r.2.2))

/-- `SynParamMap::clone_with_fresh_generics` from `src/generics.rs`: rebuild
the lookup table from a fresh seed, keeping only the names whose symbol has an
entry in the substitution map. -/
def SynParamMap.clone_with_fresh_generics (m : SynParamMap) (pm : ParamMap) : SynParamMap :=
  m.map.foldl
    (fun acc kv =>
      match pm.get kv.2 with
      | some v => acc.insert kv.1 v
      | none => acc)
    SynParamMap.new

/-- `Generics::clone_with_fresh_generics` from `src/generics.rs`: fresh
symbols for all declared params, then the constraints and the lookup table
cloned through the resulting substitution map, which is returned alongside. -/
def Generics.clone_with_fresh_generics (g : Generics) (c : Counters) :
    Option ((Generics × ParamMap) × Counters) :=
  match freshParams g.params ParamMap.new c with
  | none => none
  | some (params', pm, c') =>
    match cloneConstraintList g.constraints pm with
    | none => none
    | some constraints' =>
      some ((Generics.mk params' constraints'
              (g.param_map.clone_with_fresh_generics pm), pm), c')

mutual

/-- Does the symbol `p` occur anywhere in a type node (in reference
lifetimes, type-parameter references, trait-object bounds, path arguments,
or a data structure's generics and shape)? -/
def occTypeNode (p : GenericParam) : TypeNode → Bool
  | .Infer => false
  | .Tuple types => occTypeNodeList p types
  | .PrimitiveStr => false
  | .Reference _ lifetime inner =>
    (match lifetime with
     | some l => decide (p = GenericParam.Lifetime l)
     | none => false) || occTypeNode p inner
  | .Dereference t => occTypeNode p t
  | .TraitObject bounds => occTypeParamBoundList p bounds
  | .DataStructure ds => occDataStructure p ds
  | .Path pa => occPath p pa
  | .TypeParam tp => decide (p = GenericParam.Typ tp)

/-- Occurrence in a list of type nodes. -/
def occTypeNodeList (p : GenericParam) : List TypeNode → Bool
  | [] => false
  | t :: rest => occTypeNode p t || occTypeNodeList p rest

/-- Occurrence in a type-param bound. -/
def occTypeParamBound (p : GenericParam) : TypeParamBound → Bool
  | .Lifetime l => decide (p = GenericParam.Lifetime l)
  | .Trait (.mk lifetimes path) =>
    lifetimes.any (fun l => decide (p = GenericParam.Lifetime l)) || occPath p path

/-- Occurrence in a list of type-param bounds. -/
def occTypeParamBoundList (p : GenericParam) : List TypeParamBound → Bool
  | [] => false
  | b :: rest => occTypeParamBound p b || occTypeParamBoundList p rest

/-- Occurrence in a path's generic arguments. -/
def occPath (p : GenericParam) : Path → Bool
  | .mk _ segs => occPathSegmentList p segs

/-- Occurrence in a list of path segments. -/
def occPathSegmentList (p : GenericParam) : List PathSegment → Bool
  | [] => false
  | .mk _ args :: rest => occGenericArguments p args || occPathSegmentList p rest

/-- Occurrence in `GenericArguments`. -/
def occGenericArguments (p : GenericParam) : GenericArguments → Bool
  | .mk args => occGenericArgumentList p args

/-- Occurrence in a list of generic arguments. -/
def occGenericArgumentList (p : GenericParam) : List GenericArgument → Bool
  | [] => false
  | a :: rest => occGenericArgument p a || occGenericArgumentList p rest

/-- Occurrence in one generic argument. -/
def occGenericArgument (p : GenericParam) : GenericArgument → Bool
  | .Typ t => occTypeNode p t
  | .Lifetime l => decide (p = GenericParam.Lifetime l)
  | .Binding (.mk _ ty) => occTypeNode p ty
  | .Constraint (.mk _ bounds) => occTypeParamBoundList p bounds
  | .Const => false

/-- Occurrence in a constraint (bound-lifetime introducers, the bounded type
and the bound list, or a lifetime definition). -/
def occConstraint (p : GenericParam) : GenericConstraint → Bool
  | .Typ (.mk lifetimes bounded_ty bounds) =>
    lifetimes.any (fun l => decide (p = GenericParam.Lifetime l)) ||
      occTypeNode p bounded_ty || occTypeParamBoundList p bounds
  | .Lifetime ld =>
    decide (p = GenericParam.Lifetime ld.lifetime) ||
      ld.bounds.any (fun l => decide (p = GenericParam.Lifetime l))

/-- Occurrence in a constraint list. -/
def occConstraintList (p : GenericParam) : List GenericConstraint → Bool
  | [] => false
  | c :: rest => occConstraint p c || occConstraintList p rest

/-- Occurrence of a symbol anywhere in a `Generics`: among its declared
params, in its constraints, or among the values of its lookup table. -/
def occGenerics (p : GenericParam) : Generics → Bool
  | .mk params constraints param_map =>
    params.any (fun q => decide (q = p)) ||
      occConstraintList p constraints ||
      param_map.map.any (fun kv => decide (kv.2 = p))

/-- Occurrence in a data-structure type node: its generics or its shape. -/
def occDataStructure (p : GenericParam) : DataStructure → Bool
  | .mk _ generics data => occGenerics p generics || occDataTypeNode p data

/-- Occurrence in a `Data<TypeNode>` shape (elements live in struct fields;
enum variants carry no elements). -/
def occDataTypeNode (p : GenericParam) : Data TypeNode → Bool
  | .Struct s => occStructTypeNode p s
  | .Enum _ => false

/-- Occurrence in a `Struct<TypeNode>`. -/
def occStructTypeNode (p : GenericParam) : Struct TypeNode → Bool
  | .Unit _ => false
  | .Tuple ts => occFieldList p ts.fields
  | .Struct ss => occFieldList p ss.fields

/-- Occurrence in a list of fields. -/
def occFieldList (p : GenericParam) : List (Field TypeNode) → Bool
  | [] => false
  | f :: rest => occTypeNode p f.element || occFieldList p rest

end

/-- Modelled from the spec: `Field::map`-style helper used by `Data::map`
(from a crate file not present under `src/`): apply `f` to a field, keeping
its accessor. -/
def mapFields {T U : Type} (f : Field T → U) : List (Field T) → List (Field U)
  | [] => []
  | fl :: rest => ⟨fl.accessor, f fl⟩ :: mapFields f rest

/-- Map a variant across element types (variants carry no elements). -/
def Variant.map {T U : Type} : Variant T → Variant U
  | .Unit u => .Unit u
  | .Tuple t => .Tuple t
  | .Struct s => .Struct s

/-- Modelled from the spec: `Data::map` (from a crate file not present under
`src/`) — "mapping a shape from `Data<T>` to `Data<U>` produces a new,
independent shape of equal structure": same struct/enum variant, same
accessors and attributes, each field's element produced by the closure from
the old field. -/
def Data.map {T U : Type} (d : Data T) (f : Field T → U) : Data U :=
  match d with
  | .Struct (.Unit u) => .Struct (.Unit u)
  | .Struct (.Tuple ts) => .Struct (.Tuple ⟨mapFields f ts.fields, ts.attrs⟩)
  | .Struct (.Struct ss) => .Struct (.Struct ⟨mapFields f ss.fields, ss.attrs⟩)
  | .Enum e => .Enum ⟨e.variants.map Variant.map, e.attrs⟩

/-- Stateful field map: apply `f` left to right, threading the state (models
a Rust `map` whose closure mutates the global value arena). -/
def mapFieldsState {T U S : Type} (f : Field T → S → U × S) :
    List (Field T) → S → List (Field U) × S
  | [], st => ([], st)
  | fl :: rest, st =>
    let (u, st') := f fl st
    let (us, st'') := mapFieldsState f rest st'
    (⟨fl.accessor, u⟩ :: us, st'')

/-- Stateful `Data::map`, used when the mapping closure pushes nodes onto the
global value arena. -/
def Data.mapState {T U S : Type} (d : Data T) (f : Field T → S → U × S) (st : S) :
    Data U × S :=
  match d with
  | .Struct (.Unit u) => (.Struct (.Unit u), st)
  | .Struct (.Tuple ts) =>
    let (fs, st') := mapFieldsState f ts.fields st
    (.Struct (.Tuple ⟨fs, ts.attrs⟩), st')
  | .Struct (.Struct ss) =>
    let (fs, st') := mapFieldsState f ss.fields st
    (.Struct (.Struct ⟨fs, ss.attrs⟩), st')
  | .Enum e => (.Enum ⟨e.variants.map Variant.map, e.attrs⟩, st)

/-- `Type::new_unit` (on the identified `TypeNode`). -/
def TypeNode.new_unit : TypeNode := .Tuple []

/-- `Type::new_tuple`. -/
def TypeNode.new_tuple (types : List TypeNode) : TypeNode := .Tuple types

/-- `Type::new_primitive_str`. -/
def TypeNode.new_primitive_str : TypeNode := .PrimitiveStr

/-- `Type::new_reference` — wrap in an immutable reference without lifetime. -/
def TypeNode.new_reference (t : TypeNode) : TypeNode :=
  .Reference false none t

/-- `Type::new_reference_mut` — wrap in a mutable reference without lifetime. -/
def TypeNode.new_reference_mut (t : TypeNode) : TypeNode :=
  .Reference true none t

/-- `Type::dereference` — a reference yields its inner type directly; any
other node is wrapped in an explicit `Dereference` node. -/
def TypeNode.dereference (t : TypeNode) : TypeNode :=
  match t with
  | .Reference _ _ inner => inner
  | other => .Dereference other

/-- `Type::as_data` — reinterpret a data structure, or a reference to one,
as a `Data` shape, propagating the reference's mutability and lifetime onto
every field's element; fatal (`panic!`) otherwise. -/
def TypeNode.as_data : TypeNode → Option (Data TypeNode)
  | .DataStructure (.mk _ _ data) => some (data.map (fun f => f.element))
  | .Reference is_mut lifetime inner =>
    (TypeNode.as_data inner).map (fun d =>
      d.map (fun f => .Reference is_mut lifetime f.element))
  | _ => none

/-- `Type::index` — the n-th element of a `Tuple` or tuple-struct
`DataStructure`; fatal (out-of-bounds panic or non-tuple shape) otherwise. -/
def TypeNode.index (t : TypeNode) (i : Nat) : Option TypeNode :=
  match t with
  | .Tuple types => types.get? i
  | .DataStructure (.mk _ _ data) =>
    match data with
    | .Struct (.Tuple ts) => (ts.fields.get? i).map (fun f => f.element)
    | _ => none
  | _ => none

/-- `struct ValueRef(usize)` — an index into the global value arena. -/
abbrev ValueRef := Nat

/-- `enum ValueNode` from `src/node.rs` (`Binding`/`Destructure` store their
type through the transparent `Type` newtype, identified with `TypeNode`;
`Invoke` and `MacroInvocation` hold indices into the global invocation
tables). -/
inductive ValueNode where
  | Tuple (values : List ValueRef)
  | Str (s : String)
  | Reference (is_mut : Bool) (value : ValueRef)
  | Dereference (value : ValueRef)
  | Binding (name : String) (ty : TypeNode)
  | DataStructure (name : String) (data : Data ValueRef)
  | Invoke (invoke : Nat)
  | Destructure (parent : ValueRef) (accessor : Accessor) (ty : TypeNode)
  | MacroInvocation (m : Nat)

/-- Modelled from the spec: `VALUES.index_push(node)` — append a node to the
global arena and return its stable index (the arena layer lives in a crate
file not present under `src/`). -/
def index_push (vals : List ValueNode) (node : ValueNode) : ValueRef × List ValueNode :=
  (vals.length, vals ++ [node])

/-- `Value::new_tuple` from `src/value.rs`. -/
def Value.new_tuple (vals : List ValueNode) (values : List ValueRef) :
    ValueRef × List ValueNode :=
  index_push vals (.Tuple values)

/-- `Value::new_reference` from `src/value.rs` — push a `Reference` node
wrapping the receiver. -/
def Value.new_reference (vals : List ValueNode) (self : ValueRef) :
    ValueRef × List ValueNode :=
  index_push vals (.Reference false self)

/-- `Value::new_reference_mut` from `src/value.rs`. -/
def Value.new_reference_mut (vals : List ValueNode) (self : ValueRef) :
    ValueRef × List ValueNode :=
  index_push vals (.Reference true self)

/-- `Value::dereference` from `src/value.rs` — a `Reference` node yields the
existing inner handle without touching the arena; any other node gets a new
`Dereference` node pushed; the arena lookup itself panics on a dangling
index. -/
def Value.dereference (vals : List ValueNode) (self : ValueRef) :
    Option (ValueRef × List ValueNode) :=
  match vals.get? self with
  | some (.Reference _ value) => some (value, vals)
  | some _ => some (index_push vals (.Dereference self))
  | none => none

mutual

/-- `ValueNode::get_type` from `src/node.rs`: the catch-all arms
(`Dereference`, `DataStructure`, `MacroInvocation`) are a fatal `panic!`;
`Invoke` consults the global invocation table (modelled by the list of
recorded output types); recursion through the arena is fuelled, `none` on
exhausted fuel. -/
def ValueNode.get_type (invokes : List TypeNode) (vals : List ValueNode) :
    Nat → ValueNode → Option TypeNode
  | fuel, .Tuple values =>
    (getTypeList invokes vals fuel values).map (fun ts => .Tuple ts)
  | _, .Str _ => some .PrimitiveStr
  | fuel, .Reference is_mut value =>
    (ValueRef.get_type invokes vals fuel value).map
      (fun t => .Reference is_mut none t)
  | _, .Binding _ ty => some ty
  | _, .Destructure _ _ ty => some ty
  | _, .Invoke i => invokes.get? i
  | _, .Dereference _ => none
  | _, .DataStructure _ _ => none
  | _, .MacroInvocation _ => none

/-- `ValueRef::get_type` from `src/node.rs`: look the node up in the arena
(panic on a dangling index) and take its type. -/
def ValueRef.get_type (invokes : List TypeNode) (vals : List ValueNode) :
    Nat → ValueRef → Option TypeNode
  | 0, _ => none
  | fuel + 1, r => (vals.get? r).bind (ValueNode.get_type invokes vals fuel)

/-- Types of a list of value refs (the `Tuple` arm's `map`/`collect`). -/
def getTypeList (invokes : List TypeNode) (vals : List ValueNode) :
    Nat → List ValueRef → Option (List TypeNode)
  | _, [] => some []
  | fuel, r :: rest =>
    (ValueRef.get_type invokes vals fuel r).bind (fun t =>
      (getTypeList invokes vals fuel rest).map (fun ts => t :: ts))

end

unseal ValueNode.get_type ValueRef.get_type getTypeList

/-- `fn is_tuple_struct` from `src/value.rs`. -/
def is_tuple_struct (ds : DataStructure) : Bool :=
  match ds with
  | .mk _ _ (.Struct (.Tuple _)) => true
  | _ => false

/-- `Value::index` from `src/value.rs`: project the n-th element out of a
tuple-shaped value; for a `Binding` of tuple type an explicit bounds check
panics, for the other tuple shapes the slice indexing panics out of bounds;
any other receiver falls back to a positional `Destructure` with an inferred
type. -/
def Value.index (invokes : List TypeNode) (fuel : Nat) (vals : List ValueNode)
    (self : ValueRef) (i : Nat) : Option (ValueRef × List ValueNode) :=
  match vals.get? self with
  | none => none
  | some (.Tuple values) => (values.get? i).map (fun r => (r, vals))
  | some (.Binding _ (.Tuple types)) =>
    if types.length ≤ i then none
    else (types.get? i).map (fun ty =>
      index_push vals (.Destructure self (.Index i) ty))
  | some (.DataStructure _ (.Struct (.Tuple ts))) =>
    (ts.fields.get? i).bind (fun field =>
      (ValueRef.get_type invokes vals fuel field.element).map (fun ty =>
        index_push vals (.Destructure self field.accessor ty)))
  | some (.Binding _ (.DataStructure ds)) =>
    if is_tuple_struct ds then
      match ds with
      | .mk _ _ (.Struct (.Tuple ts)) =>
        (ts.fields.get? i).map (fun field =>
          index_push vals (.Destructure self field.accessor field.element))
      | _ => none
    else some (index_push vals (.Destructure self (.Index i) .Infer))
  | some _ => some (index_push vals (.Destructure self (.Index i) .Infer))

/-- `Value::as_data` from `src/value.rs`: a data-structure literal maps its
fields to values directly; a reference re-reads the referent and wraps every
field in a (mutable) reference, pushing the new nodes; a binding destructures
through its declared type, pushing a `Destructure` node per field; anything
else is a fatal `panic!`. Arena recursion is fuelled. -/
def Value.as_data : Nat → List ValueNode → ValueRef →
    Option (Data ValueRef × List ValueNode)
  | 0, _, _ => none
  | fuel + 1, vals, self =>
    match vals.get? self with
    | some (.DataStructure _ data) =>
      some (data.map (fun f => f.element), vals)
    | some (.Reference false value) =>
      (Value.as_data fuel vals value).map (fun r =>
        r.1.mapState (fun f vs => Value.new_reference vs f.element) r.2)
    | some (.Reference true value) =>
      (Value.as_data fuel vals value).map (fun r =>
        r.1.mapState (fun f vs => Value.new_reference_mut vs f.element) r.2)
    | some (.Binding _ ty) =>
      (TypeNode.as_data ty).map (fun d =>
        d.mapState
          (fun f vs => index_push vs (.Destructure self f.accessor f.element))
          vals)
    | _ => none

/-- The externally-parsed path shape handed in at the parser boundary
(`syn::Path`), reduced to what the core inspects: a leading-colon flag and
plain identifier segments (the embedding does not model generic arguments
inside parsed paths). -/
structure SynPath where
  leading_colon : Bool
  segments : List String
deriving DecidableEq

/-- `syn::Path::get_ident` — the single identifier of a one-segment path with
no leading colon. -/
def SynPath.get_ident (p : SynPath) : Option String :=
  if p.leading_colon then none
  else
    match p.segments with
    | [s] => some s
    | _ => none

/-- Modelled from the spec: `Path::syn_to_path` (from the crate's `path.rs`,
not present under `src/`) — convert a parsed path to an internal `Path`,
segment by segment. -/
def Path.syn_to_path (sp : SynPath) (_param_map : SynParamMap) : Path :=
  .mk sp.leading_colon (sp.segments.map (fun s => .mk s (.mk [])))

/-- `syn::TypeParamBound`: a trait bound with optional `for<...>` binder
lifetimes and a path, or a lifetime bound. -/
inductive SynTypeParamBound where
  | Trait (lifetimes : Option (List String)) (path : SynPath)
  | Lifetime (name : String)
deriving DecidableEq

/-- `syn::Type`, reduced to the shapes `Type::syn_to_type` handles; every
other parsed shape is the catch-all `unimplemented!` arm, collapsed into
`Other`. -/
inductive SynType where
  | Path (qself_some : Bool) (path : SynPath)
  | Reference (lifetime : Option String) (mutability : Bool) (elem : SynType)
  | TraitObject (bounds : List SynTypeParamBound)
  | Tuple (elems : List SynType) (trailing_punct : Bool)
  | Other

/-- `syn::WherePredicate`: a type predicate, a lifetime predicate, or the
unsupported equality predicate. -/
inductive SynWherePredicate where
  | TypeP (lifetimes : Option (List String)) (bounded_ty : SynType)
      (bounds : List SynTypeParamBound)
  | LifetimeP (lifetime : String) (bounds : List String)
  | Eq

/-- The fold inside `syn_to_bound_lifetimes`. -/
def bound_lifetimes_go : List String → SynParamMap → Counters →
    List Lifetime × SynParamMap × Counters
  | [], pm, c => ([], pm, c)
  | n :: rest, pm, c =>
    let (l, c') := c.countLifetime
    let pm' := pm.insert n (.Lifetime l)
    let (ls, pm'', c'') := bound_lifetimes_go rest pm' c'
    (l :: ls, pm'', c'')

/-- `fn syn_to_bound_lifetimes` from `src/generics.rs`: mint a fresh lifetime
symbol for every `for<...>`-bound lifetime, registering each name in the
lookup table. -/
def syn_to_bound_lifetimes (lifetimes : Option (List String)) (pm : SynParamMap)
    (c : Counters) : List Lifetime × SynParamMap × Counters :=
  match lifetimes with
  | none => ([], pm, c)
  | some names => bound_lifetimes_go names pm c

/-- `fn syn_to_type_param_bound` from `src/generics.rs`: a trait bound keeps
its (freshly minted) binder lifetimes and path; a lifetime bound resolves the
name in the lookup table (`get_lifetime` panic on an unknown name). -/
def syn_to_type_param_bound (b : SynTypeParamBound) (pm : SynParamMap) (c : Counters) :
    Option (TypeParamBound × SynParamMap × Counters) :=
  match b with
  | .Trait lifetimes path =>
    let (ls, pm', c') := syn_to_bound_lifetimes lifetimes pm c
    some (.Trait (.mk ls (Path.syn_to_path path pm')), pm', c')
  | .Lifetime name =>
    (pm.get_lifetime name).map (fun l => (.Lifetime l, pm, c))

/-- `fn syn_to_type_param_bounds` from `src/generics.rs` — element-wise,
threading the lookup table and counters. -/
def syn_to_type_param_bounds : List SynTypeParamBound → SynParamMap → Counters →
    Option (List TypeParamBound × SynParamMap × Counters)
  | [], pm, c => some ([], pm, c)
  | b :: rest, pm, c =>
    match syn_to_type_param_bound b pm c with
    | none => none
    | some (b', pm', c') =>
      (syn_to_type_param_bounds rest pm' c').map
        (fun r => (b' :: r.1, r.2.1, r.2.2))

mutual

/-- `Type::syn_to_type` from `src/ty.rs`: a bare identifier that names a
known parameter resolves to a type-parameter reference (`expect` panic if the
entry is not a type param); other paths resolve to a `Path`; references
recurse and resolve the optional lifetime name; trait objects translate their
bounds; a one-element non-trailing-comma parenthesized type unwraps; any
other parsed shape (including a `qself` path) is a fatal `unimplemented!`. -/
def TypeNode.syn_to_type : SynType → SynParamMap → Counters →
    Option (TypeNode × SynParamMap × Counters)
  | .Path qself_some sp, pm, c =>
    if qself_some then none
    else
      match sp.get_ident with
      | some ident =>
        match pm.get ident with
        | some param =>
          (param.type_param).map (fun tp => (.TypeParam tp, pm, c))
        | none => some (.Path (Path.syn_to_path sp pm), pm, c)
      | none => some (.Path (Path.syn_to_path sp pm), pm, c)
  | .Reference lifetime mutability elem, pm, c =>
    match TypeNode.syn_to_type elem pm c with
    | none => none
    | some (inner, pm', c') =>
      match lifetime with
      | none => some (.Reference mutability none inner, pm', c')
      | some name =>
        (pm'.get_lifetime name).map
          (fun l => (.Reference mutability (some l) inner, pm', c'))
  | .TraitObject bounds, pm, c =>
    (syn_to_type_param_bounds bounds pm c).map
      (fun r => (.TraitObject r.1, r.2.1, r.2.2))
  | .Tuple elems trailing_punct, pm, c =>
    match elems with
    | [] => some (.Tuple [], pm, c)
    | [e] =>
      if trailing_punct then
        (synTypeList [e] pm c).map (fun r => (.Tuple r.1, r.2.1, r.2.2))
      else TypeNode.syn_to_type e pm c
    | e1 :: e2 :: rest =>
      (synTypeList (e1 :: e2 :: rest) pm c).map (fun r => (.Tuple r.1, r.2.1, r.2.2))
  | .Other, _, _ => none
termination_by t _ _ => sizeOf t

/-- Element-wise `syn_to_type`, threading the lookup table and counters. -/
def synTypeList : List SynType → SynParamMap → Counters →
    Option (List TypeNode × SynParamMap × Counters)
  | [], pm, c => some ([], pm, c)
  | t :: rest, pm, c =>
    match TypeNode.syn_to_type t pm c with
    | none => none
    | some (t', pm', c') =>
      (synTypeList rest pm' c').map (fun r => (t' :: r.1, r.2.1, r.2.2))
termination_by ts _ _ => sizeOf ts

end

unseal TypeNode.syn_to_type synTypeList

/-- One predicate of `fn syn_where_predicates_to_generic_constraints` from
`src/generics.rs`: a type predicate translates its binder lifetimes, bounded
type and bounds against the lookup table; a lifetime predicate resolves every
name with `get_lifetime` (panic on unknown names); an equality predicate is a
fatal `unimplemented!`. -/
def synWherePredicateToConstraint (pred : SynWherePredicate) (pm : SynParamMap)
    (c : Counters) : Option (GenericConstraint × SynParamMap × Counters) :=
  match pred with
  | .TypeP lifetimes bounded_ty bounds =>
    let (ls, pm1, c1) := syn_to_bound_lifetimes lifetimes pm c
    match TypeNode.syn_to_type bounded_ty pm1 c1 with
    | none => none
    | some (ty, pm2, c2) =>
      (syn_to_type_param_bounds bounds pm2 c2).map
        (fun r => (.Typ (.mk ls ty r.1), r.2.1, r.2.2))
  | .LifetimeP lifetime bounds =>
    match pm.get_lifetime lifetime with
    | none => none
    | some l =>
      (optMap pm.get_lifetime bounds).map
        (fun bs => (.Lifetime ⟨l, bs⟩, pm, c))
  | .Eq => none

/-- `fn syn_where_predicates_to_generic_constraints`, over a whole predicate
list. -/
def synWherePredicatesToConstraints : List SynWherePredicate → SynParamMap → Counters →
    Option (List GenericConstraint × SynParamMap × Counters)
  | [], pm, c => some ([], pm, c)
  | p :: rest, pm, c =>
    match synWherePredicateToConstraint p pm c with
    | none => none
    | some (gc, pm', c') =>
      (synWherePredicatesToConstraints rest pm' c').map
        (fun r => (gc :: r.1, r.2.1, r.2.2))

/-- `Generics::set_generic_constraints` from `src/generics.rs`, taking the
already-parsed clauses (string parsing happens at the external parser
boundary): translate each clause against the existing lookup table and append
the results to the constraint list. -/
def Generics.set_generic_constraints (g : Generics) (preds : List SynWherePredicate)
    (c : Counters) : Option (Generics × Counters) :=
  (synWherePredicatesToConstraints preds g.param_map c).map
    (fun r => (.mk g.params (g.constraints ++ r.1) r.2.1, r.2.2))

/-- The tuple-shaped receivers of `Value::index` (the non-fallback match
arms): a `Tuple` node, a tuple-struct `DataStructure` node, or a `Binding`
whose type is a tuple or a tuple struct. -/
def isTupleShapedNode : ValueNode → Bool
  | .Tuple _ => true
  | .DataStructure _ (.Struct (.Tuple _)) => true
  | .Binding _ (.Tuple _) => true
  | .Binding _ (.DataStructure ds) => is_tuple_struct ds
  | _ => false

/-- The symbol's sequence number is at least the counter value of its kind
(i.e. the symbol could only have been minted at or after counter state `c`);
never true of the unsupported `Const` kind. -/
def freshAtLeastB (c : Counters) : GenericParam → Bool
  | .Lifetime l => decide (c.lifetimes ≤ l.idx)
  | .Typ t => decide (c.type_params ≤ t.idx)
  | .Const _ => false

/-- The symbol was minted strictly before counter state `c` (`Const` symbols
carry no number and are vacuously old). -/
def olderThanB (c : Counters) : GenericParam → Bool
  | .Lifetime l => decide (l.idx < c.lifetimes)
  | .Typ t => decide (t.idx < c.type_params)
  | .Const _ => true

/-! ## Theorems -/

theorem alGet_alInsert_self {K V : Type} [DecidableEq K] (m : List (K × V)) (k : K) (v : V) :
    alGet (alInsert m k v) k = some v := by
  induction m with
  | nil => simp [alInsert, alGet]
  | cons kv rest ih =>
    by_cases h : kv.1 = k
    · simp [alInsert, h, alGet]
    · simp [alInsert, h, alGet, ih]

theorem alGet_alInsert_ne {K V : Type} [DecidableEq K] (m : List (K × V)) (k k' : K) (v : V)
    (h : k' ≠ k) : alGet (alInsert m k v) k' = alGet m k' := by
  induction m with
  | nil =>
    simp only [alInsert, alGet]
    rw [if_neg (fun hh => h hh.symm)]
  | cons kv rest ih =>
    obtain ⟨k1, v1⟩ := kv
    by_cases hk : k1 = k
    · subst hk
      simp only [alInsert, if_pos rfl, alGet]
      rw [if_neg (fun hh => h hh.symm), if_neg (fun hh => h hh.symm)]
    · simp only [alInsert, if_neg hk, alGet, ih]

theorem mem_of_alGet {K V : Type} [DecidableEq K] (m : List (K × V)) (k : K) (v : V)
    (h : alGet m k = some v) : (k, v) ∈ m := by
  induction m with
  | nil => simp [alGet] at h
  | cons kv rest ih =>
    obtain ⟨k1, v1⟩ := kv
    by_cases hk : k1 = k
    · simp only [alGet, if_pos hk] at h
      injection h with h
      subst hk
      subst h
      exact List.mem_cons_self _ _
    · simp only [alGet, if_neg hk] at h
      exact List.mem_cons_of_mem _ (ih h)

theorem mem_alInsert {K V : Type} [DecidableEq K] (m : List (K × V)) (k : K) (v : V)
    (kv : K × V) (h : kv ∈ alInsert m k v) : kv = (k, v) ∨ kv ∈ m := by
  induction m with
  | nil =>
    simp only [alInsert, List.mem_singleton] at h
    exact Or.inl h
  | cons hd rest ih =>
    obtain ⟨k1, v1⟩ := hd
    by_cases hk : k1 = k
    · simp only [alInsert, if_pos hk] at h
      rcases List.mem_cons.mp h with h1 | h1
      · exact Or.inl h1
      · exact Or.inr (List.mem_cons_of_mem _ h1)
    · simp only [alInsert, if_neg hk] at h
      rcases List.mem_cons.mp h with h1 | h1
      · exact Or.inr (by simp [h1])
      · rcases ih h1 with h2 | h2
        · exact Or.inl h2
        · exact Or.inr (List.mem_cons_of_mem _ h2)

/-- C2, counterexample: taking a reference of a reference does not collapse —
`new_reference` on the reference type `&str` yields the nested
reference-of-reference `&&str`, not the collapsed `&str`. -/
theorem new_reference_of_reference_nests_cx :
    TypeNode.new_reference (TypeNode.new_reference .PrimitiveStr) =
      .Reference false none (.Reference false none .PrimitiveStr) ∧
    TypeNode.new_reference (TypeNode.new_reference .PrimitiveStr) ≠
      .Reference false none .PrimitiveStr := by
  constructor
  · rfl
  · intro h
    simp [TypeNode.new_reference] at h

/-- C2, amended: `new_reference` and `new_reference_mut` always wrap their
receiver in one new `Reference` layer — in particular a receiver that is
already a `Reference` (type node or value node) gets a second `Reference`
layer; no collapsing happens on construction (collapsing lives in
`dereference`). -/
theorem new_reference_always_wraps :
    (∀ t : TypeNode, TypeNode.new_reference t = .Reference false none t ∧
        TypeNode.new_reference_mut t = .Reference true none t) ∧
    (∀ (vals : List ValueNode) (v : ValueRef),
        Value.new_reference vals v = (vals.length, vals ++ [.Reference false v]) ∧
        Value.new_reference_mut vals v = (vals.length, vals ++ [.Reference true v])) :=
  ⟨fun _ => ⟨rfl, rfl⟩, fun _ _ => ⟨rfl, rfl⟩⟩

/-- C3: dereferencing an immutable or mutable reference yields the inner type
back unchanged, and dereferencing a non-reference type wraps it in an
explicit `Dereference` node. -/
theorem dereference_roundtrip :
    (∀ t : TypeNode, (TypeNode.new_reference t).dereference = t ∧
        (TypeNode.new_reference_mut t).dereference = t) ∧
    (∀ t : TypeNode, (∀ is_mut lifetime inner, t ≠ .Reference is_mut lifetime inner) →
        t.dereference = .Dereference t) := by
  constructor
  · exact fun t => ⟨rfl, rfl⟩
  · intro t h
    cases t with
    | Reference is_mut lifetime inner => exact absurd rfl (h is_mut lifetime inner)
    | _ => rfl

/-- C3, witness at `str`. -/
theorem dereference_roundtrip_witness :
    (TypeNode.new_reference .PrimitiveStr).dereference = .PrimitiveStr ∧
    TypeNode.dereference .PrimitiveStr = .Dereference .PrimitiveStr :=
  ⟨(dereference_roundtrip.1 .PrimitiveStr).1,
   dereference_roundtrip.2 .PrimitiveStr (by intro m l i h; cases h)⟩

/-- C4: the empty tuple is the unit type, `index` on `new_tuple Ts` returns
`Ts[i]` for every in-bounds `i`, and is fatal for every out-of-bounds `i`. -/
theorem new_tuple_unit_and_index :
    TypeNode.new_tuple [] = TypeNode.new_unit ∧
    (∀ (ts : List TypeNode) (i : Nat), ts ≠ [] → ∀ (h : i < ts.length),
        (TypeNode.new_tuple ts).index i = some (ts.get ⟨i, h⟩)) ∧
    (∀ (ts : List TypeNode) (i : Nat), ts.length ≤ i →
        (TypeNode.new_tuple ts).index i = none) := by
  refine ⟨rfl, ?_, ?_⟩
  · intro ts i _ h
    simp [TypeNode.new_tuple, TypeNode.index, List.get?_eq_get h]
  · intro ts i h
    simp only [TypeNode.new_tuple, TypeNode.index]
    exact List.get?_eq_none.mpr h

/-- C4, witness on the one-element tuple `(str,)`. -/
theorem new_tuple_unit_and_index_witness :
    (TypeNode.new_tuple [.PrimitiveStr]).index 0 = some .PrimitiveStr ∧
    (TypeNode.new_tuple [.PrimitiveStr]).index 1 = none :=
  ⟨new_tuple_unit_and_index.2.1 [.PrimitiveStr] 0 (by simp) (by simp),
   new_tuple_unit_and_index.2.2 [.PrimitiveStr] 1 (by simp)⟩

/-- C10: dereferencing a value whose node is a `Reference` hands back the
existing inner index and leaves the arena unchanged; dereferencing any other
node appends exactly one new `Dereference` node. -/
theorem value_dereference_frame (vals : List ValueNode) (self : ValueRef) :
    (∀ is_mut v, vals.get? self = some (.Reference is_mut v) →
        Value.dereference vals self = some (v, vals)) ∧
    (∀ node, vals.get? self = some node →
        (∀ is_mut v, node ≠ .Reference is_mut v) →
        Value.dereference vals self = some (index_push vals (.Dereference self))) := by
  constructor
  · intro is_mut v h
    simp only [Value.dereference]
    rw [h]
  · intro node h hne
    cases node with
    | Reference is_mut v => exact absurd rfl (hne is_mut v)
    | Tuple values => simp only [Value.dereference]; rw [h]
    | Str st => simp only [Value.dereference]; rw [h]
    | Dereference v => simp only [Value.dereference]; rw [h]
    | Binding name ty => simp only [Value.dereference]; rw [h]
    | DataStructure name data => simp only [Value.dereference]; rw [h]
    | Invoke i => simp only [Value.dereference]; rw [h]
    | Destructure p a ty => simp only [Value.dereference]; rw [h]
    | MacroInvocation m => simp only [Value.dereference]; rw [h]

/-- C10, witness: dereferencing the reference at index 1 returns index 0 and
does not grow the arena; dereferencing the plain `Str` at index 0 appends a
`Dereference` node. -/
theorem value_dereference_frame_witness :
    Value.dereference [.Str "x", .Reference false 0] 1 =
      some (0, [.Str "x", .Reference false 0]) ∧
    Value.dereference [.Str "x"] 0 =
      some (index_push [.Str "x"] (.Dereference 0)) :=
  ⟨(value_dereference_frame [.Str "x", .Reference false 0] 1).1 false 0 rfl,
   (value_dereference_frame [.Str "x"] 0).2 (.Str "x") rfl (by intro m v h; cases h)⟩

/-- C5: indexing a value whose stored node is not tuple-shaped (not a
`Tuple`, not a tuple-struct `DataStructure`, and not a `Binding` of tuple or
tuple-struct type) never fails: for any position `n` it appends and returns a
`Destructure` node with positional accessor `n` and the `Infer` placeholder
type. -/
theorem value_index_fallback (invokes : List TypeNode) (fuel : Nat)
    (vals : List ValueNode) (self : ValueRef) (node : ValueNode) (n : Nat)
    (h1 : vals.get? self = some node) (h2 : isTupleShapedNode node = false) :
    Value.index invokes fuel vals self n =
      some (index_push vals (.Destructure self (.Index n) .Infer)) := by
  cases node with
  | Tuple values => simp [isTupleShapedNode] at h2
  | Binding name ty =>
    cases ty with
    | Tuple types => simp [isTupleShapedNode] at h2
    | DataStructure ds =>
      simp only [isTupleShapedNode] at h2
      simp only [Value.index]
      rw [h1]
      simp [h2]
    | Infer => simp only [Value.index]; rw [h1]
    | PrimitiveStr => simp only [Value.index]; rw [h1]
    | Reference is_mut lt inner => simp only [Value.index]; rw [h1]
    | Dereference t => simp only [Value.index]; rw [h1]
    | TraitObject bs => simp only [Value.index]; rw [h1]
    | Path p => simp only [Value.index]; rw [h1]
    | TypeParam tp => simp only [Value.index]; rw [h1]
  | DataStructure name data =>
    rcases data with s | e
    · rcases s with u | t | ss
      · simp only [Value.index]; rw [h1]
      · simp [isTupleShapedNode] at h2
      · simp only [Value.index]; rw [h1]
    · simp only [Value.index]; rw [h1]
  | Str st => simp only [Value.index]; rw [h1]
  | Reference is_mut v => simp only [Value.index]; rw [h1]
  | Dereference v => simp only [Value.index]; rw [h1]
  | Invoke i => simp only [Value.index]; rw [h1]
  | Destructure p a ty => simp only [Value.index]; rw [h1]
  | MacroInvocation m => simp only [Value.index]; rw [h1]

/-- C5, witness: indexing a `Str` value at position 3. -/
theorem value_index_fallback_witness :
    Value.index [] 0 [.Str "x"] 0 3 =
      some (index_push [.Str "x"] (.Destructure 0 (.Index 3) .Infer)) :=
  value_index_fallback [] 0 [.Str "x"] 0 (.Str "x") 3 rfl rfl

/-- C6, counterexample: `ValueNode::get_type` also fails fast on a
`DataStructure` node — a node kind outside the claim's exact failing set
`{Dereference, MacroInvocation}`. -/
theorem get_type_data_structure_cx :
    ValueNode.get_type [] [] 1 (.DataStructure "X" (.Struct (.Unit ⟨[]⟩))) = none := by
  rfl

/-- C6, amended: `ValueNode::get_type` fails fast exactly on the node kinds
that carry no type information — `Dereference`, `MacroInvocation` and
`DataStructure` — and returns a `Type` for every other kind (`Str`,
`Binding`, `Destructure` unconditionally; `Invoke` when the invocation is
recorded in the global table; `Reference` and `Tuple` when the referenced
sub-values' types resolve). -/
theorem get_type_partiality (invokes : List TypeNode) (vals : List ValueNode) (fuel : Nat) :
    (∀ v, ValueNode.get_type invokes vals fuel (.Dereference v) = none) ∧
    (∀ m, ValueNode.get_type invokes vals fuel (.MacroInvocation m) = none) ∧
    (∀ nm d, ValueNode.get_type invokes vals fuel (.DataStructure nm d) = none) ∧
    (∀ st, ValueNode.get_type invokes vals fuel (.Str st) = some .PrimitiveStr) ∧
    (∀ nm ty, ValueNode.get_type invokes vals fuel (.Binding nm ty) = some ty) ∧
    (∀ p a ty, ValueNode.get_type invokes vals fuel (.Destructure p a ty) = some ty) ∧
    (∀ i t, invokes.get? i = some t →
        ValueNode.get_type invokes vals fuel (.Invoke i) = some t) ∧
    (∀ is_mut v t, ValueRef.get_type invokes vals fuel v = some t →
        ValueNode.get_type invokes vals fuel (.Reference is_mut v) =
          some (.Reference is_mut none t)) ∧
    (∀ rs ts, getTypeList invokes vals fuel rs = some ts →
        ValueNode.get_type invokes vals fuel (.Tuple rs) = some (.Tuple ts)) := by
  refine ⟨?_, ?_, ?_, ?_, ?_, ?_, ?_, ?_, ?_⟩
  · intro v; simp [ValueNode.get_type]
  · intro m; simp [ValueNode.get_type]
  · intro nm d; simp [ValueNode.get_type]
  · intro st; simp [ValueNode.get_type]
  · intro nm ty; simp [ValueNode.get_type]
  · intro p a ty; simp [ValueNode.get_type]
  · intro i t h; simp only [ValueNode.get_type]; exact h
  · intro is_mut v t h; simp [ValueNode.get_type, h]
  · intro rs ts h; simp [ValueNode.get_type, h]

/-- C6, witness: a recorded invocation and a reference to a string binding
both type successfully at concrete inputs. -/
theorem get_type_partiality_witness :
    ValueNode.get_type [.PrimitiveStr] [.Str "a"] 1 (.Invoke 0) = some .PrimitiveStr ∧
    ValueNode.get_type [.PrimitiveStr] [.Str "a"] 1 (.Reference false 0) =
      some (.Reference false none .PrimitiveStr) ∧
    ValueNode.get_type [.PrimitiveStr] [.Str "a"] 1 (.Tuple [0]) =
      some (.Tuple [.PrimitiveStr]) :=
  ⟨(get_type_partiality [.PrimitiveStr] [.Str "a"] 1).2.2.2.2.2.2.1 0 .PrimitiveStr rfl,
   (get_type_partiality [.PrimitiveStr] [.Str "a"] 1).2.2.2.2.2.2.2.1 false 0 .PrimitiveStr rfl,
   (get_type_partiality [.PrimitiveStr] [.Str "a"] 1).2.2.2.2.2.2.2.2 [0] [.PrimitiveStr] rfl⟩

/-- C9: indexing position 1 of a value whose node is a two-field tuple-struct
`DataStructure` yields a freshly pushed `Destructure` node carrying the
second field's accessor and the second field's element type. -/
theorem tuple_struct_index_second_field (invokes : List TypeNode) (fuel : Nat)
    (vals : List ValueNode) (self : ValueRef) (name : String)
    (f0 f1 : Field ValueRef) (attrs : List Attribute) (ty : TypeNode)
    (h1 : vals.get? self =
        some (.DataStructure name (.Struct (.Tuple ⟨[f0, f1], attrs⟩))))
    (h2 : ValueRef.get_type invokes vals fuel f1.element = some ty) :
    Value.index invokes fuel vals self 1 =
      some (index_push vals (.Destructure self f1.accessor ty)) := by
  simp only [Value.index]
  rw [h1]
  simp [h2]

/-- C9, witness: a two-field tuple-struct value whose second field is a
binding declared at the unit type; `.index(1)` destructures at that type. -/
theorem tuple_struct_index_second_field_witness :
    Value.index [] 1
      [.Binding "a" .PrimitiveStr, .Binding "b" (.Tuple []),
       .DataStructure "P" (.Struct (.Tuple ⟨[⟨.Index 0, 0⟩, ⟨.Index 1, 1⟩], []⟩))]
      2 1 =
      some (index_push
        [.Binding "a" .PrimitiveStr, .Binding "b" (.Tuple []),
         .DataStructure "P" (.Struct (.Tuple ⟨[⟨.Index 0, 0⟩, ⟨.Index 1, 1⟩], []⟩))]
        (.Destructure 2 (.Index 1) (.Tuple []))) :=
  tuple_struct_index_second_field [] 1
    [.Binding "a" .PrimitiveStr, .Binding "b" (.Tuple []),
     .DataStructure "P" (.Struct (.Tuple ⟨[⟨.Index 0, 0⟩, ⟨.Index 1, 1⟩], []⟩))]
    2 "P" ⟨.Index 0, 0⟩ ⟨.Index 1, 1⟩ [] (.Tuple []) rfl rfl

/-- C8, counterexample: `Value::as_data` succeeds on a `Binding` whose
declared type is a data structure — a receiver that is neither a
data-structure node nor a reference to one. -/
theorem value_as_data_binding_cx :
    Value.as_data 1
      [.Binding "b" (.DataStructure (.mk "S" Generics.default (.Struct (.Unit ⟨[]⟩))))] 0 =
      some (.Struct (.Unit ⟨[]⟩),
        [.Binding "b" (.DataStructure (.mk "S" Generics.default (.Struct (.Unit ⟨[]⟩))))]) := by
  rfl

/-- C8, amended: `as_data` on types succeeds exactly on a data structure or a
(possibly iterated) reference to one, propagating the reference's mutability
and lifetime onto every field's element; on values it additionally succeeds
on a `Binding` whose declared type's `as_data` succeeds (pushing one
`Destructure` per field), and on references it re-reads the referent and
pushes one (mutable) reference node per field; every other receiver is
fatal. -/
theorem as_data_characterization :
    (∀ nm g d, TypeNode.as_data (.DataStructure (.mk nm g d)) =
        some (d.map (fun f => f.element))) ∧
    (∀ is_mut lt t, TypeNode.as_data (.Reference is_mut lt t) =
        (TypeNode.as_data t).map (fun d =>
          d.map (fun f => .Reference is_mut lt f.element))) ∧
    (∀ t : TypeNode, (∀ ds, t ≠ .DataStructure ds) →
        (∀ is_mut lt i, t ≠ .Reference is_mut lt i) →
        TypeNode.as_data t = none) ∧
    (∀ fuel vals self nm d, vals.get? self = some (.DataStructure nm d) →
        Value.as_data (fuel + 1) vals self = some (d.map (fun f => f.element), vals)) ∧
    (∀ fuel vals self nm ty d, vals.get? self = some (.Binding nm ty) →
        TypeNode.as_data ty = some d →
        Value.as_data (fuel + 1) vals self =
          some (d.mapState
            (fun f vs => index_push vs (.Destructure self f.accessor f.element)) vals)) ∧
    (∀ fuel vals self v r, vals.get? self = some (.Reference false v) →
        Value.as_data fuel vals v = some r →
        Value.as_data (fuel + 1) vals self =
          some (r.1.mapState (fun f vs => Value.new_reference vs f.element) r.2)) ∧
    (∀ fuel vals self v r, vals.get? self = some (.Reference true v) →
        Value.as_data fuel vals v = some r →
        Value.as_data (fuel + 1) vals self =
          some (r.1.mapState (fun f vs => Value.new_reference_mut vs f.element) r.2)) ∧
    (∀ fuel vals self node, vals.get? self = some node →
        (∀ nm d, node ≠ .DataStructure nm d) →
        (∀ is_mut v, node ≠ .Reference is_mut v) →
        (∀ nm ty, node ≠ .Binding nm ty) →
        Value.as_data (fuel + 1) vals self = none) := by
  refine ⟨?_, ?_, ?_, ?_, ?_, ?_, ?_, ?_⟩
  · intro nm g d; rfl
  · intro is_mut lt t; rfl
  · intro t h1 h2
    cases t with
    | DataStructure ds => exact absurd rfl (h1 ds)
    | Reference is_mut lt i => exact absurd rfl (h2 is_mut lt i)
    | _ => rfl
  · intro fuel vals self nm d h
    simp only [Value.as_data]
    rw [h]
  · intro fuel vals self nm ty d h hd
    simp only [Value.as_data]
    rw [h]
    simp [hd]
  · intro fuel vals self v r h hr
    simp only [Value.as_data]
    rw [h]
    simp [hr]
  · intro fuel vals self v r h hr
    simp only [Value.as_data]
    rw [h]
    simp [hr]
  · intro fuel vals self node h hd hr hb
    cases node with
    | DataStructure nm d => exact absurd rfl (hd nm d)
    | Reference is_mut v =>
      exact absurd rfl (hr is_mut v)
    | Binding nm ty => exact absurd rfl (hb nm ty)
    | Tuple values => simp only [Value.as_data]; rw [h]
    | Str st => simp only [Value.as_data]; rw [h]
    | Dereference v => simp only [Value.as_data]; rw [h]
    | Invoke i => simp only [Value.as_data]; rw [h]
    | Destructure p a ty => simp only [Value.as_data]; rw [h]
    | MacroInvocation m => simp only [Value.as_data]; rw [h]

/-- C8, witness: reading a reference to a one-field tuple-struct value
wraps the field in a new reference node; `as_data` on a plain `Str` value is
fatal. -/
theorem as_data_characterization_witness :
    Value.as_data 2
      [.Str "f", .DataStructure "W" (.Struct (.Tuple ⟨[⟨.Index 0, 0⟩], []⟩)),
       .Reference false 1] 2 =
      some ((Data.Struct (.Tuple ⟨[⟨.Index 0, 0⟩], []⟩) : Data ValueRef).mapState
        (fun f vs => Value.new_reference vs f.element)
        [.Str "f", .DataStructure "W" (.Struct (.Tuple ⟨[⟨.Index 0, 0⟩], []⟩)),
         .Reference false 1]) ∧
    Value.as_data 1 [.Str "f"] 0 = none :=
  ⟨as_data_characterization.2.2.2.2.2.1 1
      [.Str "f", .DataStructure "W" (.Struct (.Tuple ⟨[⟨.Index 0, 0⟩], []⟩)),
       .Reference false 1] 2 1
      (.Struct (.Tuple ⟨[⟨.Index 0, 0⟩], []⟩),
       [.Str "f", .DataStructure "W" (.Struct (.Tuple ⟨[⟨.Index 0, 0⟩], []⟩)),
        .Reference false 1]) rfl rfl,
   as_data_characterization.2.2.2.2.2.2.2 0 [.Str "f"] 0 (.Str "f") rfl
     (by intro nm d h; cases h) (by intro m v h; cases h) (by intro nm ty h; cases h)⟩

/-- C7, counterexample: a where-clause `T: Clone` whose bounded name `T` is
absent from the lookup table is *not* rejected — `set_generic_constraints`
succeeds, silently resolving the unknown name to a `Path`. -/
theorem set_generic_constraints_unknown_type_cx :
    Generics.set_generic_constraints Generics.default
      [.TypeP none (.Path false ⟨false, ["T"]⟩) [.Trait none ⟨false, ["Clone"]⟩]] ⟨1, 0⟩ =
      some (.mk [] [.Typ (.mk [] (.Path (.mk false [.mk "T" (.mk [])]))
        [.Trait (.mk [] (.mk false [.mk "Clone" (.mk [])]))])] SynParamMap.new, ⟨1, 0⟩) := by
  rfl

/-- C7, amended: only a clause referencing an unknown *lifetime* name is
rejected (fatal `get_lifetime`); a type clause whose bounded type is a bare
identifier missing from the lookup table succeeds, resolving the name to a
`Path` instead. -/
theorem set_generic_constraints_name_resolution :
    (∀ (g : Generics) (c : Counters) (name : String) (bounds : List String),
        g.param_map.get name = none →
        Generics.set_generic_constraints g [.LifetimeP name bounds] c = none) ∧
    (∀ (g : Generics) (c : Counters) (s : String) (bounds : List SynTypeParamBound) r,
        g.param_map.get s = none →
        syn_to_type_param_bounds bounds g.param_map c = some r →
        Generics.set_generic_constraints g
            [.TypeP none (.Path false ⟨false, [s]⟩) bounds] c =
          some (.mk g.params
            (g.constraints ++
              [.Typ (.mk [] (.Path (Path.syn_to_path ⟨false, [s]⟩ g.param_map)) r.1)])
            r.2.1, r.2.2)) := by
  constructor
  · intro g c name bounds h
    simp [Generics.set_generic_constraints, synWherePredicatesToConstraints,
      synWherePredicateToConstraint, SynParamMap.get_lifetime, h]
  · intro g c s bounds r h hr
    simp [Generics.set_generic_constraints, synWherePredicatesToConstraints,
      synWherePredicateToConstraint, syn_to_bound_lifetimes,
      TypeNode.syn_to_type, SynPath.get_ident, h, hr]

/-- C7, witness: on a default `Generics`, the clause `'a: 'static` is fatal
(`'a` unknown) while the clause bounding the unknown bare name `U` succeeds
as a path. -/
theorem set_generic_constraints_name_resolution_witness :
    Generics.set_generic_constraints Generics.default [.LifetimeP "'a" ["'static"]] ⟨1, 0⟩ =
      none ∧
    Generics.set_generic_constraints Generics.default
        [.TypeP none (.Path false ⟨false, ["U"]⟩) []] ⟨1, 0⟩ =
      some (.mk [] [.Typ (.mk [] (.Path (Path.syn_to_path ⟨false, ["U"]⟩ SynParamMap.new)) [])]
        SynParamMap.new, ⟨1, 0⟩) :=
  ⟨set_generic_constraints_name_resolution.1 Generics.default ⟨1, 0⟩ "'a" ["'static"] rfl,
   set_generic_constraints_name_resolution.2 Generics.default ⟨1, 0⟩ "U" []
     ([], SynParamMap.new, ⟨1, 0⟩) rfl rfl⟩

theorem not_fresh_and_older (c : Counters) (p : GenericParam)
    (hf : freshAtLeastB c p = true) (ho : olderThanB c p = true) : False := by
  cases p with
  | Lifetime l =>
    simp [freshAtLeastB] at hf
    simp [olderThanB] at ho
    omega
  | Typ t =>
    simp [freshAtLeastB] at hf
    simp [olderThanB] at ho
    omega
  | Const cc => simp [freshAtLeastB] at hf

theorem fresh_older_ne (c : Counters) (q q' : GenericParam)
    (hf : freshAtLeastB c q' = true) (ho : olderThanB c q = true) : q ≠ q' :=
  fun h => not_fresh_and_older c q (h ▸ hf) ho

theorem freshAtLeastB_mono (c c' : Counters) (q : GenericParam)
    (h : freshAtLeastB c' q = true) (h1 : c.lifetimes ≤ c'.lifetimes)
    (h2 : c.type_params ≤ c'.type_params) : freshAtLeastB c q = true := by
  cases q with
  | Lifetime l => simp [freshAtLeastB] at h ⊢; omega
  | Typ t => simp [freshAtLeastB] at h ⊢; omega
  | Const cc => simp [freshAtLeastB] at h

theorem olderThanB_mono (c c' : Counters) (q : GenericParam)
    (h : olderThanB c q = true) (h1 : c.lifetimes ≤ c'.lifetimes)
    (h2 : c.type_params ≤ c'.type_params) : olderThanB c' q = true := by
  cases q with
  | Lifetime l => simp [olderThanB] at h ⊢; omega
  | Typ t => simp [olderThanB] at h ⊢; omega
  | Const cc => simp [olderThanB]

theorem get_fresh_param_spec (p p' : GenericParam) (c c' : Counters)
    (h : p.get_fresh_param c = some (p', c')) :
    freshAtLeastB c p' = true ∧ olderThanB c' p' = true ∧
    c.lifetimes ≤ c'.lifetimes ∧ c.type_params ≤ c'.type_params := by
  cases p with
  | Lifetime l =>
    simp [GenericParam.get_fresh_param, Counters.countLifetime] at h
    obtain ⟨h1, h2⟩ := h
    subst h1
    subst h2
    refine ⟨?_, ?_, ?_, ?_⟩ <;> simp [freshAtLeastB, olderThanB]
  | Typ t =>
    simp [GenericParam.get_fresh_param, Counters.countTypeParam] at h
    obtain ⟨h1, h2⟩ := h
    subst h1
    subst h2
    refine ⟨?_, ?_, ?_, ?_⟩ <;> simp [freshAtLeastB, olderThanB]
  | Const cc => simp [GenericParam.get_fresh_param] at h

theorem freshParams_nil_elim (pm : ParamMap) (c : Counters)
    (qs : List GenericParam) (pm' : ParamMap) (c' : Counters)
    (h : freshParams [] pm c = some (qs, pm', c')) :
    qs = [] ∧ pm' = pm ∧ c' = c := by
  simp only [freshParams, Option.some.injEq, Prod.mk.injEq] at h
  exact ⟨h.1.symm, h.2.1.symm, h.2.2.symm⟩

theorem freshParams_cons_elim (p : GenericParam) (rest : List GenericParam)
    (pm : ParamMap) (c : Counters) (qs : List GenericParam) (pm' : ParamMap)
    (c' : Counters) (h : freshParams (p :: rest) pm c = some (qs, pm', c')) :
    ∃ p' c1 qs1, p.get_fresh_param c = some (p', c1) ∧
      freshParams rest (pm.insert p p') c1 = some (qs1, pm', c') ∧
      qs = p' :: qs1 := by
  simp only [freshParams] at h
  cases hg : p.get_fresh_param c with
  | none => rw [hg] at h; cases h
  | some pc =>
    rw [hg] at h
    rcases Option.map_eq_some'.mp h with ⟨r, hr, heq⟩
    have h1 : pc.1 :: r.1 = qs := congrArg Prod.fst heq
    have h2 : r.2.1 = pm' := congrArg (fun x => x.2.1) heq
    have h3 : r.2.2 = c' := congrArg (fun x => x.2.2) heq
    refine ⟨pc.1, pc.2, r.1, rfl, ?_, h1.symm⟩
    rw [← h2, ← h3]
    exact hr

theorem freshParams_le (ps : List GenericParam) (pm : ParamMap) (c : Counters)
    (qs : List GenericParam) (pm' : ParamMap) (c' : Counters)
    (h : freshParams ps pm c = some (qs, pm', c')) :
    c.lifetimes ≤ c'.lifetimes ∧ c.type_params ≤ c'.type_params := by
  induction ps generalizing pm c qs pm' c' with
  | nil =>
    obtain ⟨-, -, h3⟩ := freshParams_nil_elim pm c qs pm' c' h
    subst h3
    exact ⟨le_refl _, le_refl _⟩
  | cons p rest ih =>
    obtain ⟨p', c1, qs1, hg, hr, rfl⟩ := freshParams_cons_elim p rest pm c qs pm' c' h
    obtain ⟨-, -, hl1, hl2⟩ := get_fresh_param_spec p p' c c1 hg
    have := ih _ _ _ _ _ hr
    exact ⟨le_trans hl1 this.1, le_trans hl2 this.2⟩

theorem freshParams_len (ps : List GenericParam) (pm : ParamMap) (c : Counters)
    (qs : List GenericParam) (pm' : ParamMap) (c' : Counters)
    (h : freshParams ps pm c = some (qs, pm', c')) : qs.length = ps.length := by
  induction ps generalizing pm c qs pm' c' with
  | nil =>
    obtain ⟨rfl, -, -⟩ := freshParams_nil_elim pm c qs pm' c' h
    rfl
  | cons p rest ih =>
    obtain ⟨p', c1, qs1, -, hr, rfl⟩ := freshParams_cons_elim p rest pm c qs pm' c' h
    simp [ih _ _ _ _ _ hr]

theorem freshParams_fresh (ps : List GenericParam) (pm : ParamMap) (c : Counters)
    (qs : List GenericParam) (pm' : ParamMap) (c' : Counters)
    (h : freshParams ps pm c = some (qs, pm', c')) :
    ∀ q ∈ qs, freshAtLeastB c q = true ∧ olderThanB c' q = true := by
  induction ps generalizing pm c qs pm' c' with
  | nil =>
    obtain ⟨rfl, -, -⟩ := freshParams_nil_elim pm c qs pm' c' h
    intro q hq
    cases hq
  | cons p rest ih =>
    obtain ⟨p', c1, qs1, hg, hr, rfl⟩ := freshParams_cons_elim p rest pm c qs pm' c' h
    obtain ⟨hf, ho, hl1, hl2⟩ := get_fresh_param_spec p p' c c1 hg
    obtain ⟨hl1', hl2'⟩ := freshParams_le rest _ c1 qs1 pm' c' hr
    intro q hq
    rcases List.mem_cons.mp hq with rfl | hq1
    · exact ⟨hf, olderThanB_mono c1 c' q ho hl1' hl2'⟩
    · obtain ⟨hf1, ho1⟩ := ih _ _ _ _ _ hr q hq1
      exact ⟨freshAtLeastB_mono c c1 q hf1 hl1 hl2, ho1⟩

theorem freshParams_nodup (ps : List GenericParam) (pm : ParamMap) (c : Counters)
    (qs : List GenericParam) (pm' : ParamMap) (c' : Counters)
    (h : freshParams ps pm c = some (qs, pm', c')) : qs.Nodup := by
  induction ps generalizing pm c qs pm' c' with
  | nil =>
    obtain ⟨rfl, -, -⟩ := freshParams_nil_elim pm c qs pm' c' h
    exact List.nodup_nil
  | cons p rest ih =>
    obtain ⟨p', c1, qs1, hg, hr, rfl⟩ := freshParams_cons_elim p rest pm c qs pm' c' h
    obtain ⟨-, ho, -, -⟩ := get_fresh_param_spec p p' c c1 hg
    refine List.nodup_cons.mpr ⟨?_, ih _ _ _ _ _ hr⟩
    intro hmem
    obtain ⟨hf1, -⟩ := freshParams_fresh rest _ c1 qs1 pm' c' hr p' hmem
    exact fresh_older_ne c1 p' p' hf1 ho rfl

theorem freshParams_frame (ps : List GenericParam) (pm : ParamMap) (c : Counters)
    (qs : List GenericParam) (pm' : ParamMap) (c' : Counters)
    (h : freshParams ps pm c = some (qs, pm', c')) :
    ∀ k, k ∉ ps → pm'.get k = pm.get k := by
  induction ps generalizing pm c qs pm' c' with
  | nil =>
    obtain ⟨-, rfl, -⟩ := freshParams_nil_elim pm c qs pm' c' h
    intro k _
    rfl
  | cons p rest ih =>
    obtain ⟨p', c1, qs1, -, hr, rfl⟩ := freshParams_cons_elim p rest pm c qs pm' c' h
    intro k hk
    have hk1 : k ∉ rest := fun hh => hk (List.mem_cons_of_mem _ hh)
    have hk2 : k ≠ p := fun hh => hk (hh ▸ List.mem_cons_self _ _)
    rw [ih _ _ _ _ _ hr k hk1]
    exact alGet_alInsert_ne pm.map p k p' hk2

theorem freshParams_get (ps : List GenericParam) (pm : ParamMap) (c : Counters)
    (qs : List GenericParam) (pm' : ParamMap) (c' : Counters)
    (h : freshParams ps pm c = some (qs, pm', c')) (hnd : ps.Nodup) :
    ∀ i pk qk, ps.get? i = some pk → qs.get? i = some qk → pm'.get pk = some qk := by
  induction ps generalizing pm c qs pm' c' with
  | nil =>
    intro i pk qk hp _
    simp at hp
  | cons p rest ih =>
    obtain ⟨p', c1, qs1, -, hr, rfl⟩ := freshParams_cons_elim p rest pm c qs pm' c' h
    obtain ⟨hnotmem, hnd1⟩ := List.nodup_cons.mp hnd
    intro i pk qk hp hq
    cases i with
    | zero =>
      simp only [List.get?] at hp hq
      injection hp with hp
      injection hq with hq
      subst hp
      subst hq
      rw [freshParams_frame rest _ c1 qs1 pm' c' hr p hnotmem]
      exact alGet_alInsert_self pm.map p p' 
    | succ j =>
      simp only [List.get?] at hp hq
      exact ih _ _ _ _ _ hr hnd1 j pk qk hp hq

theorem freshParams_range (ps : List GenericParam) (pm : ParamMap) (c : Counters)
    (qs : List GenericParam) (pm' : ParamMap) (c' : Counters)
    (h : freshParams ps pm c = some (qs, pm', c')) :
    ∀ q v, pm'.get q = some v → pm.get q = some v ∨ v ∈ qs := by
  induction ps generalizing pm c qs pm' c' with
  | nil =>
    obtain ⟨-, rfl, -⟩ := freshParams_nil_elim pm c qs pm' c' h
    intro q v hv
    exact Or.inl hv
  | cons p rest ih =>
    obtain ⟨p', c1, qs1, -, hr, rfl⟩ := freshParams_cons_elim p rest pm c qs pm' c' h
    intro q v hv
    rcases ih _ _ _ _ _ hr q v hv with h1 | h1
    · by_cases hq : q = p
      · subst hq
        have := alGet_alInsert_self pm.map q p'
        rw [show (pm.insert q p').get q = alGet (alInsert pm.map q p') q from rfl] at h1
        rw [this] at h1
        injection h1 with h1
        exact Or.inr (h1 ▸ List.mem_cons_self _ _)
      · rw [show (pm.insert p p').get q = alGet (alInsert pm.map p p') q from rfl,
          alGet_alInsert_ne pm.map p q p' hq] at h1
        exact Or.inl h1
    · exact Or.inr (List.mem_cons_of_mem _ h1)

theorem freshParams_dom (ps : List GenericParam) (pm : ParamMap) (c : Counters)
    (qs : List GenericParam) (pm' : ParamMap) (c' : Counters)
    (h : freshParams ps pm c = some (qs, pm', c')) :
    ∀ q v, pm'.get q = some v → (∃ v0, pm.get q = some v0) ∨ q ∈ ps := by
  induction ps generalizing pm c qs pm' c' with
  | nil =>
    obtain ⟨-, rfl, -⟩ := freshParams_nil_elim pm c qs pm' c' h
    intro q v hv
    exact Or.inl ⟨v, hv⟩
  | cons p rest ih =>
    obtain ⟨p', c1, qs1, -, hr, rfl⟩ := freshParams_cons_elim p rest pm c qs pm' c' h
    intro q v hv
    rcases ih _ _ _ _ _ hr q v hv with ⟨v0, h1⟩ | h1
    · by_cases hq : q = p
      · exact Or.inr (hq ▸ List.mem_cons_self _ _)
      · rw [show (pm.insert p p').get q = alGet (alInsert pm.map p p') q from rfl,
          alGet_alInsert_ne pm.map p q p' hq] at h1
        exact Or.inl ⟨v0, h1⟩
    · exact Or.inr (List.mem_cons_of_mem _ h1)

theorem paramMap_new_get (q v : GenericParam) (h : ParamMap.new.get q = some v) :
    q = .Lifetime STATIC_LIFETIME ∧ v = .Lifetime STATIC_LIFETIME := by
  by_cases hq : q = .Lifetime STATIC_LIFETIME
  · subst hq
    refine ⟨rfl, ?_⟩
    simp [ParamMap.new, ParamMap.get, alGet] at h
    exact h.symm
  · exfalso
    simp only [ParamMap.new, ParamMap.get, alGet] at h
    rw [if_neg (fun hh => hq hh.symm)] at h
    cases h

theorem synclone_values (m : SynParamMap) (pm : ParamMap) :
    ∀ k v, (k, v) ∈ (m.clone_with_fresh_generics pm).map →
      v = .Lifetime STATIC_LIFETIME ∨ ∃ q, pm.get q = some v := by
  have base : ∀ k v, (k, v) ∈ SynParamMap.new.map →
      v = .Lifetime STATIC_LIFETIME ∨ ∃ q, pm.get q = some v := by
    intro k v hv
    simp [SynParamMap.new] at hv
    exact Or.inl hv.2
  suffices hgen : ∀ (l : List (String × GenericParam)) (acc : SynParamMap),
      (∀ k v, (k, v) ∈ acc.map → v = .Lifetime STATIC_LIFETIME ∨ ∃ q, pm.get q = some v) →
      ∀ k v, (k, v) ∈ (l.foldl
        (fun acc kv =>
          match pm.get kv.2 with
          | some v => acc.insert kv.1 v
          | none => acc) acc).map →
        v = .Lifetime STATIC_LIFETIME ∨ ∃ q, pm.get q = some v by
    intro k v hv
    exact hgen m.map SynParamMap.new base k v hv
  intro l
  induction l with
  | nil => intro acc hacc k v hv; exact hacc k v hv
  | cons kv rest ih =>
    intro acc hacc k v hv
    refine ih _ ?_ k v hv
    intro k1 v1 h1
    cases hg : pm.get kv.2 with
    | none =>
      simp only [hg] at h1
      exact hacc k1 v1 h1
    | some w =>
      simp only [hg] at h1
      rcases mem_alInsert acc.map kv.1 w (k1, v1) h1 with h2 | h2
      · injection h2 with h2a h2b
        exact Or.inr ⟨kv.2, h2b ▸ hg⟩
      · exact hacc k1 v1 h2

/-- C1, counterexample: the static lifetime symbol occurs in the lookup table
of the default `Generics` and still occurs in the lookup table of its
fresh-generics clone, so "no symbol of G appears in G′" fails. -/
theorem clone_with_fresh_generics_static_cx :
    Generics.default.clone_with_fresh_generics ⟨1, 0⟩ =
      some ((Generics.mk [] [] ⟨[("'static", .Lifetime STATIC_LIFETIME)]⟩,
        ⟨[(.Lifetime STATIC_LIFETIME, .Lifetime STATIC_LIFETIME)]⟩), ⟨1, 0⟩) ∧
    occGenerics (.Lifetime STATIC_LIFETIME) Generics.default = true ∧
    occGenerics (.Lifetime STATIC_LIFETIME)
      (Generics.mk [] [] ⟨[("'static", .Lifetime STATIC_LIFETIME)]⟩) = true :=
  ⟨rfl, rfl, rfl⟩

theorem lifetime_clone_range (l : Lifetime) (pm : ParamMap) (l' : Lifetime)
    (h : l.clone_with_fresh_generics pm = some l') :
    ∃ q, pm.get q = some (.Lifetime l') := by
  simp only [Lifetime.clone_with_fresh_generics] at h
  rcases Option.bind_eq_some.mp h with ⟨gp, hg, hl⟩
  cases gp with
  | Lifetime l2 =>
    simp only [GenericParam.lifetime, Option.some.injEq] at hl
    subst hl
    exact ⟨.Lifetime l, hg⟩
  | Typ t => simp [GenericParam.lifetime] at hl
  | Const cc => simp [GenericParam.lifetime] at hl

theorem cloneOptLifetime_range (lt : Option Lifetime) (pm : ParamMap) (l' : Lifetime)
    (h : cloneOptLifetime lt pm = some (some l')) :
    ∃ q, pm.get q = some (.Lifetime l') := by
  cases lt with
  | none =>
    simp only [cloneOptLifetime, Option.some.injEq] at h
    cases h
  | some l =>
    simp only [cloneOptLifetime] at h
    rcases Option.map_eq_some'.mp h with ⟨l2, hl2, hb⟩
    injection hb with hb
    subst hb
    exact lifetime_clone_range l pm _ hl2

theorem cloneLifetimes_range (pm : ParamMap) (ls : List Lifetime) (ls' : List Lifetime)
    (h : cloneLifetimes pm ls = some ls') :
    ∀ l' ∈ ls', ∃ q, pm.get q = some (.Lifetime l') := by
  induction ls generalizing ls' with
  | nil =>
    simp only [cloneLifetimes, optMap, Option.some.injEq] at h
    subst h
    intro l' hl'
    cases hl'
  | cons l rest ih =>
    simp only [cloneLifetimes, optMap] at h
    cases hc : l.clone_with_fresh_generics pm with
    | none => rw [hc] at h; cases h
    | some l1 =>
      rw [hc] at h
      rcases Option.map_eq_some'.mp h with ⟨rest1, hr1, hb⟩
      subst hb
      intro l' hl'
      rcases List.mem_cons.mp hl' with rfl | hmem
      · exact lifetime_clone_range l pm l' hc
      · exact ih rest1 hr1 l' hmem

mutual

theorem rangeTypeNode (t : TypeNode) (pm : ParamMap) (t' : TypeNode)
    (h : TypeNode.clone_with_fresh_generics t pm = some t') (p : GenericParam)
    (hp : occTypeNode p t' = true) : ∃ q, pm.get q = some p := by
  cases t with
  | Infer =>
    simp only [TypeNode.clone_with_fresh_generics, Option.some.injEq] at h
    subst h
    simp [occTypeNode] at hp
  | PrimitiveStr =>
    simp only [TypeNode.clone_with_fresh_generics, Option.some.injEq] at h
    subst h
    simp [occTypeNode] at hp
  | Tuple ts =>
    simp only [TypeNode.clone_with_fresh_generics] at h
    rcases Option.map_eq_some'.mp h with ⟨ts', hts, hb⟩
    subst hb
    simp only [occTypeNode] at hp
    exact rangeTypeNodeList ts pm ts' hts p hp
  | Reference is_mut lt inner =>
    simp only [TypeNode.clone_with_fresh_generics] at h
    rcases Option.bind_eq_some.mp h with ⟨lt', hlt, h2⟩
    rcases Option.map_eq_some'.mp h2 with ⟨inner', hin, hb⟩
    subst hb
    simp only [occTypeNode, Bool.or_eq_true] at hp
    rcases hp with hp | hp
    · cases lt' with
      | none => simp at hp
      | some l' =>
        rw [decide_eq_true_eq] at hp
        subst hp
        exact cloneOptLifetime_range lt pm l' hlt
    · exact rangeTypeNode inner pm inner' hin p hp
  | Dereference t0 =>
    simp only [TypeNode.clone_with_fresh_generics] at h
    rcases Option.map_eq_some'.mp h with ⟨t1, ht1, hb⟩
    subst hb
    simp only [occTypeNode] at hp
    exact rangeTypeNode t0 pm t1 ht1 p hp
  | TraitObject bs =>
    simp only [TypeNode.clone_with_fresh_generics] at h
    rcases Option.map_eq_some'.mp h with ⟨bs', hbs, hb⟩
    subst hb
    simp only [occTypeNode] at hp
    exact rangeTypeParamBoundList bs pm bs' hbs p hp
  | DataStructure ds =>
    simp only [TypeNode.clone_with_fresh_generics] at h
    cases h
  | Path pa =>
    simp only [TypeNode.clone_with_fresh_generics] at h
    rcases Option.map_eq_some'.mp h with ⟨pa', hpa, hb⟩
    subst hb
    simp only [occTypeNode] at hp
    exact rangePath pa pm pa' hpa p hp
  | TypeParam tp =>
    simp only [TypeNode.clone_with_fresh_generics] at h
    rcases Option.map_eq_some'.mp h with ⟨tp', h2, hb⟩
    subst hb
    rcases Option.bind_eq_some.mp h2 with ⟨gp, hg, hgt⟩
    simp only [occTypeNode, decide_eq_true_eq] at hp
    subst hp
    cases gp with
    | Typ t0 =>
      simp only [GenericParam.type_param, Option.some.injEq] at hgt
      subst hgt
      exact ⟨.Typ tp, hg⟩
    | Lifetime l0 => simp [GenericParam.type_param] at hgt
    | Const cc => simp [GenericParam.type_param] at hgt
termination_by sizeOf t

theorem rangeTypeNodeList (ts : List TypeNode) (pm : ParamMap) (ts' : List TypeNode)
    (h : cloneTypeNodeList ts pm = some ts') (p : GenericParam)
    (hp : occTypeNodeList p ts' = true) : ∃ q, pm.get q = some p := by
  cases ts with
  | nil =>
    simp only [cloneTypeNodeList, Option.some.injEq] at h
    subst h
    simp [occTypeNodeList] at hp
  | cons t rest =>
    simp only [cloneTypeNodeList] at h
    rcases Option.bind_eq_some.mp h with ⟨t1, ht1, h2⟩
    rcases Option.map_eq_some'.mp h2 with ⟨rest1, hr1, hb⟩
    subst hb
    simp only [occTypeNodeList, Bool.or_eq_true] at hp
    rcases hp with hp | hp
    · exact rangeTypeNode t pm t1 ht1 p hp
    · exact rangeTypeNodeList rest pm rest1 hr1 p hp
termination_by sizeOf ts

theorem rangeTypeParamBound (b : TypeParamBound) (pm : ParamMap) (b' : TypeParamBound)
    (h : TypeParamBound.clone_with_fresh_generics b pm = some b') (p : GenericParam)
    (hp : occTypeParamBound p b' = true) : ∃ q, pm.get q = some p := by
  cases b with
  | Lifetime l =>
    simp only [TypeParamBound.clone_with_fresh_generics] at h
    rcases Option.map_eq_some'.mp h with ⟨l', hl, hb⟩
    subst hb
    simp only [occTypeParamBound, decide_eq_true_eq] at hp
    subst hp
    exact lifetime_clone_range l pm l' hl
  | Trait tb =>
    cases tb with
    | mk ls path =>
      simp only [TypeParamBound.clone_with_fresh_generics] at h
      rcases Option.bind_eq_some.mp h with ⟨ls', hls, h2⟩
      rcases Option.map_eq_some'.mp h2 with ⟨path', hpath, hb⟩
      subst hb
      simp only [occTypeParamBound, Bool.or_eq_true] at hp
      rcases hp with hp | hp
      · rcases List.any_eq_true.mp hp with ⟨l', hmem, hpl⟩
        rw [decide_eq_true_eq] at hpl
        subst hpl
        exact cloneLifetimes_range pm ls ls' hls l' hmem
      · exact rangePath path pm path' hpath p hp
termination_by sizeOf b

theorem rangeTypeParamBoundList (bs : List TypeParamBound) (pm : ParamMap)
    (bs' : List TypeParamBound) (h : cloneTypeParamBoundList bs pm = some bs')
    (p : GenericParam) (hp : occTypeParamBoundList p bs' = true) :
    ∃ q, pm.get q = some p := by
  cases bs with
  | nil =>
    simp only [cloneTypeParamBoundList, Option.some.injEq] at h
    subst h
    simp [occTypeParamBoundList] at hp
  | cons b rest =>
    simp only [cloneTypeParamBoundList] at h
    rcases Option.bind_eq_some.mp h with ⟨b1, hb1, h2⟩
    rcases Option.map_eq_some'.mp h2 with ⟨rest1, hr1, hb⟩
    subst hb
    simp only [occTypeParamBoundList, Bool.or_eq_true] at hp
    rcases hp with hp | hp
    · exact rangeTypeParamBound b pm b1 hb1 p hp
    · exact rangeTypeParamBoundList rest pm rest1 hr1 p hp
termination_by sizeOf bs

theorem rangePath (pa : Path) (pm : ParamMap) (pa' : Path)
    (h : Path.clone_with_fresh_generics pa pm = some pa') (p : GenericParam)
    (hp : occPath p pa' = true) : ∃ q, pm.get q = some p := by
  cases pa with
  | mk g segs =>
    simp only [Path.clone_with_fresh_generics] at h
    rcases Option.map_eq_some'.mp h with ⟨segs', hs, hb⟩
    subst hb
    simp only [occPath] at hp
    exact rangePathSegmentList segs pm segs' hs p hp
termination_by sizeOf pa

theorem rangePathSegmentList (segs : List PathSegment) (pm : ParamMap)
    (segs' : List PathSegment) (h : clonePathSegmentList segs pm = some segs')
    (p : GenericParam) (hp : occPathSegmentList p segs' = true) :
    ∃ q, pm.get q = some p := by
  cases segs with
  | nil =>
    simp only [clonePathSegmentList, Option.some.injEq] at h
    subst h
    simp [occPathSegmentList] at hp
  | cons seg rest =>
    cases seg with
    | mk ident args =>
      simp only [clonePathSegmentList] at h
      rcases Option.bind_eq_some.mp h with ⟨args', hargs, h2⟩
      rcases Option.map_eq_some'.mp h2 with ⟨rest1, hr1, hb⟩
      subst hb
      simp only [occPathSegmentList, Bool.or_eq_true] at hp
      rcases hp with hp | hp
      · exact rangeGenericArguments args pm args' hargs p hp
      · exact rangePathSegmentList rest pm rest1 hr1 p hp
termination_by sizeOf segs

theorem rangeGenericArguments (args : GenericArguments) (pm : ParamMap)
    (args' : GenericArguments)
    (h : GenericArguments.clone_with_fresh_generics args pm = some args')
    (p : GenericParam) (hp : occGenericArguments p args' = true) :
    ∃ q, pm.get q = some p := by
  cases args with
  | mk l =>
    simp only [GenericArguments.clone_with_fresh_generics] at h
    rcases Option.map_eq_some'.mp h with ⟨l', hl, hb⟩
    subst hb
    simp only [occGenericArguments] at hp
    exact rangeGenericArgumentList l pm l' hl p hp
termination_by sizeOf args

theorem rangeGenericArgumentList (l : List GenericArgument) (pm : ParamMap)
    (l' : List GenericArgument) (h : cloneGenericArgumentList l pm = some l')
    (p : GenericParam) (hp : occGenericArgumentList p l' = true) :
    ∃ q, pm.get q = some p := by
  cases l with
  | nil =>
    simp only [cloneGenericArgumentList, Option.some.injEq] at h
    subst h
    simp [occGenericArgumentList] at hp
  | cons a rest =>
    simp only [cloneGenericArgumentList] at h
    rcases Option.bind_eq_some.mp h with ⟨a1, ha1, h2⟩
    rcases Option.map_eq_some'.mp h2 with ⟨rest1, hr1, hb⟩
    subst hb
    simp only [occGenericArgumentList, Bool.or_eq_true] at hp
    rcases hp with hp | hp
    · exact rangeGenericArgument a pm a1 ha1 p hp
    · exact rangeGenericArgumentList rest pm rest1 hr1 p hp
termination_by sizeOf l

theorem rangeGenericArgument (a : GenericArgument) (pm : ParamMap)
    (a' : GenericArgument) (h : GenericArgument.clone_with_fresh_generics a pm = some a')
    (p : GenericParam) (hp : occGenericArgument p a' = true) :
    ∃ q, pm.get q = some p := by
  cases a with
  | Typ t =>
    simp only [GenericArgument.clone_with_fresh_generics] at h
    rcases Option.map_eq_some'.mp h with ⟨t', ht, hb⟩
    subst hb
    simp only [occGenericArgument] at hp
    exact rangeTypeNode t pm t' ht p hp
  | Lifetime l =>
    simp only [GenericArgument.clone_with_fresh_generics] at h
    rcases Option.map_eq_some'.mp h with ⟨l', hl, hb⟩
    subst hb
    simp only [occGenericArgument, decide_eq_true_eq] at hp
    subst hp
    exact lifetime_clone_range l pm l' hl
  | Binding b =>
    cases b with
    | mk ident ty =>
      simp only [GenericArgument.clone_with_fresh_generics] at h
      rcases Option.map_eq_some'.mp h with ⟨ty', hty, hb⟩
      subst hb
      simp only [occGenericArgument] at hp
      exact rangeTypeNode ty pm ty' hty p hp
  | Constraint cst =>
    cases cst with
    | mk ident bs =>
      simp only [GenericArgument.clone_with_fresh_generics] at h
      rcases Option.map_eq_some'.mp h with ⟨bs', hbs, hb⟩
      subst hb
      simp only [occGenericArgument] at hp
      exact rangeTypeParamBoundList bs pm bs' hbs p hp
  | Const =>
    simp only [GenericArgument.clone_with_fresh_generics] at h
    cases h
termination_by sizeOf a

end

theorem constraint_clone_range (gc : GenericConstraint) (pm : ParamMap)
    (gc' : GenericConstraint) (h : gc.clone_with_fresh_generics pm = some gc')
    (p : GenericParam) (hp : occConstraint p gc' = true) : ∃ q, pm.get q = some p := by
  cases gc with
  | Typ pt =>
    cases pt with
    | mk ls ty bs =>
      simp only [GenericConstraint.clone_with_fresh_generics] at h
      rcases Option.bind_eq_some.mp h with ⟨ls', hls, h2⟩
      rcases Option.bind_eq_some.mp h2 with ⟨ty', hty, h3⟩
      rcases Option.map_eq_some'.mp h3 with ⟨bs', hbs, hb⟩
      subst hb
      simp only [occConstraint, Bool.or_eq_true] at hp
      rcases hp with (hp | hp) | hp
      · rcases List.any_eq_true.mp hp with ⟨l', hmem, hpl⟩
        rw [decide_eq_true_eq] at hpl
        subst hpl
        exact cloneLifetimes_range pm ls ls' hls l' hmem
      · exact rangeTypeNode ty pm ty' hty p hp
      · exact rangeTypeParamBoundList bs pm bs' hbs p hp
  | Lifetime ld =>
    simp only [GenericConstraint.clone_with_fresh_generics] at h
    rcases Option.bind_eq_some.mp h with ⟨l', hl, h2⟩
    rcases Option.map_eq_some'.mp h2 with ⟨bs', hbs, hb⟩
    subst hb
    simp only [occConstraint, Bool.or_eq_true, decide_eq_true_eq] at hp
    rcases hp with hp | hp
    · subst hp
      exact lifetime_clone_range ld.lifetime pm _ hl
    · rcases List.any_eq_true.mp hp with ⟨l2, hmem, hpl⟩
      rw [decide_eq_true_eq] at hpl
      subst hpl
      exact cloneLifetimes_range pm ld.bounds bs' hbs l2 hmem

theorem constraint_list_clone_range (cs : List GenericConstraint) (pm : ParamMap)
    (cs' : List GenericConstraint) (h : cloneConstraintList cs pm = some cs')
    (p : GenericParam) (hp : occConstraintList p cs' = true) :
    ∃ q, pm.get q = some p := by
  induction cs generalizing cs' with
  | nil =>
    simp only [cloneConstraintList, optMap, Option.some.injEq] at h
    subst h
    simp [occConstraintList] at hp
  | cons gc rest ih =>
    simp only [cloneConstraintList, optMap] at h
    cases hc : gc.clone_with_fresh_generics pm with
    | none => rw [hc] at h; cases h
    | some gc1 =>
      rw [hc] at h
      rcases Option.map_eq_some'.mp h with ⟨rest1, hr1, hb⟩
      subst hb
      simp only [occConstraintList, Bool.or_eq_true] at hp
      rcases hp with hp | hp
      · exact constraint_clone_range gc pm gc1 hc p hp
      · exact ih rest1 hr1 hp

/-- C1, amended: provided the clone succeeds, every symbol of `G` is older
than the counter state, and `G`'s declared params are duplicate-free, then no
symbol of `G` *other than the well-known static lifetime* appears anywhere in
`G′`, and the returned substitution map sends `G`'s i-th declared parameter
to `G′`'s i-th (freshly minted, pairwise distinct) parameter, its domain
being exactly `G`'s parameters plus the static self-entry. -/
theorem clone_with_fresh_generics_fresh_bijective
    (g : Generics) (c : Counters) (g' : Generics) (pm : ParamMap) (c' : Counters)
    (hclone : g.clone_with_fresh_generics c = some ((g', pm), c'))
    (hold : ∀ p, occGenerics p g = true → olderThanB c p = true)
    (hnd : g.params.Nodup) :
    (∀ p, occGenerics p g = true → p ≠ .Lifetime STATIC_LIFETIME →
        occGenerics p g' = false) ∧
    g'.params.length = g.params.length ∧
    (∀ i pk qk, g.params.get? i = some pk → g'.params.get? i = some qk →
        pm.get pk = some qk) ∧
    g'.params.Nodup ∧
    (∀ q v, pm.get q = some v → q = .Lifetime STATIC_LIFETIME ∨ q ∈ g.params) := by
  simp only [Generics.clone_with_fresh_generics] at hclone
  cases hfp : freshParams g.params ParamMap.new c with
  | none => rw [hfp] at hclone; cases hclone
  | some r =>
    obtain ⟨params', pm0, c0⟩ := r
    rw [hfp] at hclone
    have hclone2 : (match cloneConstraintList g.constraints pm0 with
        | none => none
        | some constraints' =>
          some ((Generics.mk params' constraints'
            (g.param_map.clone_with_fresh_generics pm0), pm0), c0)) =
        some ((g', pm), c') := hclone
    cases hcc : cloneConstraintList g.constraints pm0 with
    | none => rw [hcc] at hclone2; cases hclone2
    | some cs' =>
      rw [hcc] at hclone2
      simp only [Option.some.injEq, Prod.mk.injEq] at hclone2
      obtain ⟨⟨hg', hpm⟩, hc0⟩ := hclone2
      subst hg'
      subst hpm
      subst hc0
      refine ⟨?_, ?_, ?_, ?_, ?_⟩
      · intro p hp hps
        by_contra hocc
        rw [Bool.not_eq_false] at hocc
        have hold' := hold p hp
        simp only [occGenerics, Bool.or_eq_true] at hocc
        have hsf : p = .Lifetime STATIC_LIFETIME ∨ freshAtLeastB c p = true := by
          rcases hocc with (hmem | hcl) | hsyn
          · rcases List.any_eq_true.mp hmem with ⟨q0, hq0, hq0p⟩
            rw [decide_eq_true_eq] at hq0p
            subst hq0p
            exact Or.inr (freshParams_fresh _ _ _ _ _ _ hfp _ hq0).1
          · rcases constraint_list_clone_range g.constraints pm0 cs' hcc p hcl with ⟨q, hq⟩
            rcases freshParams_range _ _ _ _ _ _ hfp q p hq with hnew | hfr
            · exact Or.inl (paramMap_new_get q p hnew).2
            · exact Or.inr (freshParams_fresh _ _ _ _ _ _ hfp p hfr).1
          · rcases List.any_eq_true.mp hsyn with ⟨kv, hkv, hkvp⟩
            obtain ⟨k1, v1⟩ := kv
            rw [decide_eq_true_eq] at hkvp
            subst hkvp
            rcases synclone_values g.param_map pm0 k1 v1 hkv with hst | ⟨q, hq⟩
            · exact Or.inl hst
            · rcases freshParams_range _ _ _ _ _ _ hfp q v1 hq with hnew | hfr
              · exact Or.inl (paramMap_new_get q v1 hnew).2
              · exact Or.inr (freshParams_fresh _ _ _ _ _ _ hfp v1 hfr).1
        rcases hsf with hst | hfr
        · exact hps hst
        · exact not_fresh_and_older c p hfr hold'
      · exact freshParams_len _ _ _ _ _ _ hfp
      · intro i pk qk hpk hqk
        exact freshParams_get _ _ _ _ _ _ hfp hnd i pk qk hpk hqk
      · exact freshParams_nodup _ _ _ _ _ _ hfp
      · intro q v hv
        rcases freshParams_dom _ _ _ _ _ _ hfp q v hv with ⟨v0, h0⟩ | hmem
        · exact Or.inl (paramMap_new_get q v0 h0).1
        · exact Or.inr hmem

/-- C1, witness: a `Generics` declaring one type parameter `T` (symbol 0),
cloned at counter state (1, 1): the fresh clone declares symbol 1, nothing of
the original except the static lifetime survives, and the map sends symbol 0
to symbol 1. -/
theorem clone_with_fresh_generics_fresh_bijective_witness :
    (∀ p, occGenerics p
        (Generics.mk [.Typ ⟨0⟩] []
          ⟨[("'static", .Lifetime ⟨0⟩), ("T", .Typ ⟨0⟩)]⟩) = true →
      p ≠ .Lifetime STATIC_LIFETIME →
      occGenerics p
        (Generics.mk [.Typ ⟨1⟩] []
          ⟨[("'static", .Lifetime ⟨0⟩), ("T", .Typ ⟨1⟩)]⟩) = false) ∧
    (Generics.mk [.Typ ⟨1⟩] []
      ⟨[("'static", .Lifetime ⟨0⟩), ("T", .Typ ⟨1⟩)]⟩ : Generics).params.length =
      (Generics.mk [.Typ ⟨0⟩] []
        ⟨[("'static", .Lifetime ⟨0⟩), ("T", .Typ ⟨0⟩)]⟩ : Generics).params.length ∧
    (∀ i pk qk,
      (Generics.mk [.Typ ⟨0⟩] []
        ⟨[("'static", .Lifetime ⟨0⟩), ("T", .Typ ⟨0⟩)]⟩ : Generics).params.get? i =
          some pk →
      (Generics.mk [.Typ ⟨1⟩] []
        ⟨[("'static", .Lifetime ⟨0⟩), ("T", .Typ ⟨1⟩)]⟩ : Generics).params.get? i =
          some qk →
      (ParamMap.mk [(.Lifetime ⟨0⟩, .Lifetime ⟨0⟩), (.Typ ⟨0⟩, .Typ ⟨1⟩)]).get pk =
        some qk) ∧
    (Generics.mk [.Typ ⟨1⟩] []
      ⟨[("'static", .Lifetime ⟨0⟩), ("T", .Typ ⟨1⟩)]⟩ : Generics).params.Nodup ∧
    (∀ q v,
      (ParamMap.mk [(.Lifetime ⟨0⟩, .Lifetime ⟨0⟩), (.Typ ⟨0⟩, .Typ ⟨1⟩)]).get q =
        some v →
      q = .Lifetime STATIC_LIFETIME ∨
      q ∈ (Generics.mk [.Typ ⟨0⟩] []
        ⟨[("'static", .Lifetime ⟨0⟩), ("T", .Typ ⟨0⟩)]⟩ : Generics).params) :=
  clone_with_fresh_generics_fresh_bijective
    (Generics.mk [.Typ ⟨0⟩] [] ⟨[("'static", .Lifetime ⟨0⟩), ("T", .Typ ⟨0⟩)]⟩)
    ⟨1, 1⟩
    (Generics.mk [.Typ ⟨1⟩] [] ⟨[("'static", .Lifetime ⟨0⟩), ("T", .Typ ⟨1⟩)]⟩)
    (ParamMap.mk [(.Lifetime ⟨0⟩, .Lifetime ⟨0⟩), (.Typ ⟨0⟩, .Typ ⟨1⟩)])
    ⟨1, 2⟩ rfl
    (by
      intro p hp
      have hp2 : (List.any [GenericParam.Typ ⟨0⟩] (fun q => decide (q = p)) ||
          occConstraintList p [] ||
          List.any [("'static", GenericParam.Lifetime ⟨0⟩), ("T", GenericParam.Typ ⟨0⟩)]
            (fun kv => decide (kv.2 = p))) = true := hp
      have hcl : occConstraintList p [] = false := rfl
      rw [hcl] at hp2
      simp only [List.any_cons, List.any_nil, Bool.or_false, Bool.false_or,
        Bool.or_eq_true, decide_eq_true_eq] at hp2
      rcases hp2 with h | h | h
      · subst h; rfl
      · subst h; rfl
      · subst h; rfl)
    (by simp [Generics.params])

end Reflect
